import Mathlib

/-!
# ERC20 chaincode (`src/chaincode/erc20.go`, `src/chaincode/utils.go`)

A shallow embedding of the token ledger engine.

* Go `uint64` values are natural numbers below `2 ^ 64`; wrapping addition is
  written with an explicit `% 2 ^ 64`.
* Go strings and byte slices are both `String`.
* A Go `panic` that `Init` / `Invoke` recover into `shim.Error` is a `Failure`.
  The writes issued to the stub before the panic stay in the stub, so every
  entry point returns the store it leaves behind together with its result.
-/

namespace Erc20

/-! ## utils.go -/

/-- The number of `uint64` values, `2 ^ 64`. -/
def uint64Size : Nat := 2 ^ 64

/-- The largest `uint64`, `1<<64 - 1`. -/
def maxUint64 : Nat := 2 ^ 64 - 1

/-- The reasons for which an operation ends in `shim.Error`. -/
inductive Failure where
  /-- The literal `"invalid arguments"` returned on an arity mismatch. -/
  | invalidArguments
  /-- The literal `"invalid function name"` returned by `Invoke`. -/
  | invalidFunctionName
  /-- The panic of `getSender`: no caller certificate. -/
  | identity
  /-- The panic of `s2u` on an argument: `strconv.ParseUint` failed. -/
  | parse
  /-- The panic `"invalid subtraction"` of `sub`. -/
  | invalidSubtraction
  /-- The panic `"invalid addition"` of `add`. -/
  | invalidAddition
  /-- The panic of `b2u` on a stored value: `strconv.ParseUint` failed. -/
  | corruption
  deriving DecidableEq, Repr

/-- Equality of results is decidable. -/
instance instDecidableEqExcept {α : Type} [DecidableEq α] : DecidableEq (Except Failure α)
  | .ok a, .ok b =>
    if h : a = b then isTrue (by rw [h]) else isFalse (by intro e; cases e; exact h rfl)
  | .error a, .error b =>
    if h : a = b then isTrue (by rw [h]) else isFalse (by intro e; cases e; exact h rfl)
  | .ok _, .error _ => isFalse (by intro e; cases e)
  | .error _, .ok _ => isFalse (by intro e; cases e)

/-- The function `add`: `c := a + b` wraps modulo `2 ^ 64`; panics when `c < a`. -/
def add (a b : Nat) : Except Failure Nat :=
  let c := (a + b) % uint64Size
  if c < a then .error .invalidAddition else .ok c

/-- The function `sub`: panics when `b > a`, otherwise `a - b`. -/
def sub (a b : Nat) : Except Failure Nat :=
  if b > a then .error .invalidSubtraction else .ok (a - b)

/-- The constant `cutoff` of `strconv.ParseUint` for base 10: the smallest
number whose tenfold exceeds `maxUint64`. -/
def cutoff : Nat := maxUint64 / 10 + 1

/-- Modelled from the spec: the digit loop of the Go library function
`strconv.ParseUint(s, 10, 64)`, which is not part of the repository. Every byte
must be an ASCII digit; `n * 10` and `n * 10 + d` must stay within `uint64`. -/
def parseUintLoop : List Char → Nat → Option Nat
  | [], n => some n
  | c :: cs, n =>
    if 48 ≤ c.toNat ∧ c.toNat ≤ 57 then
      if n ≥ cutoff then none
      else
        let m := n * 10
        let n1 := (m + (c.toNat - 48)) % uint64Size
        if n1 < m ∨ n1 > maxUint64 then none else parseUintLoop cs n1
    else none

/-- Modelled from the spec: the Go library function `strconv.ParseUint(s, 10, 64)`
(decimal text to quantity); the empty string is a syntax error. -/
def parseUint (s : String) : Option Nat :=
  if s.data = [] then none else parseUintLoop s.data 0

/-- Modelled from the spec: the digit loop of the Go library function
`strconv.FormatUint(u, 10)`: the digits of `n`, least significant first,
pushed in front of `acc`. -/
def formatUintLoop : Nat → Nat → List Char → List Char
  | 0, _, acc => acc
  | fuel + 1, n, acc =>
    let acc1 := Char.ofNat (48 + n % 10) :: acc
    if n < 10 then acc1 else formatUintLoop fuel (n / 10) acc1

/-- Modelled from the spec: the Go library function `strconv.FormatUint(u, 10)`,
the canonical decimal text of a `uint64` (at most 20 digits). -/
def formatUint (u : Nat) : String := ⟨formatUintLoop 20 u []⟩

/-- The function `s2u`: `none` is the panic of `checkError`. -/
def s2u (s : String) : Option Nat := parseUint s

/-- The function `u2s`. -/
def u2s (u : Nat) : String := formatUint u

/-- The function `b2u`. -/
def b2u (b : String) : Option Nat := s2u b

/-- The function `u2b`. -/
def u2b (u : Nat) : String := u2s u

/-! ## The host: key-value store, caller identity, events -/

/-- Modelled from the spec: the ledger of the stub (`shim.ChaincodeStubInterface`
is not part of the repository), a finite key-value map with read-your-writes:
the records in insertion order, each key at most once. -/
abbrev Store := List (String × String)

/-- Modelled from the spec: `stub.GetState(key)`, `none` for the `nil` of an
absent key. It never returns an error. -/
def GetState : Store → String → Option String
  | [], _ => none
  | (k1, v) :: t, k => if k1 = k then some v else GetState t k

/-- Modelled from the spec: `stub.PutState(key, value)`; it replaces the record of
`key` or adds one. It never returns an error. -/
def PutState : Store → String → String → Store
  | [], k, v => [(k, v)]
  | (k1, v1) :: t, k, v => if k1 = k then (k, v) :: t else (k1, v1) :: PutState t k v

/-- The events of the chaincode: the name given to `stub.SetEvent` and the
struct (`transfer`, `approval`) that is marshalled into its payload. -/
inductive Event where
  /-- Event `"Transfer"` with the struct `transfer{From, To, Value}`. -/
  | Transfer (sender recipient : String) (value : Nat)
  /-- Event `"Approval"` with the struct `approval{Owner, Spender, Value}`. -/
  | Approval (owner spender : String) (value : Nat)
  deriving DecidableEq, Repr

/-- What an entry point leaves behind: the response (`shim.Success(payload)` or
`shim.Error`), the store with every write that was issued, the events set. -/
structure Outcome where
  /-- The payload of `shim.Success`, or the failure behind `shim.Error`. -/
  result : Except Failure String
  /-- The store of the stub when the entry point returns. -/
  store : Store
  /-- The events handed to `stub.SetEvent`. -/
  events : List Event

/-- The constant `totalSupply`. -/
def totalSupply : Nat := 100000000

/-- The key `fmt.Sprintf("balance::%s", owner)`. -/
def balanceKey (owner : String) : String := "balance::" ++ owner

/-- The key `fmt.Sprintf("allowance::%s::%s", owner, spender)`. -/
def allowanceKey (owner spender : String) : String :=
  "allowance::" ++ owner ++ "::" ++ spender

/-- The function `getSender`: the common name of the caller certificate, which
the host has (`some`) or has not (`none`, the panic of `checkError`). -/
def getSender (caller : Option String) : Except Failure String :=
  match caller with
  | none => .error .identity
  | some cn => .ok cn

/-- The function `getBalance`: `0` for an absent record, else `b2u` of it. -/
def getBalance (st : Store) (owner : String) : Except Failure Nat :=
  match GetState st (balanceKey owner) with
  | none => .ok 0
  | some balance =>
    match b2u balance with
    | none => .error .corruption
    | some u => .ok u

/-- The function `setBalance`. -/
def setBalance (st : Store) (owner : String) (balance : Nat) : Store :=
  PutState st (balanceKey owner) (u2b balance)

/-- The function `getAllowance`: `0` for an absent record, else `b2u` of it. -/
def getAllowance (st : Store) (owner spender : String) : Except Failure Nat :=
  match GetState st (allowanceKey owner spender) with
  | none => .ok 0
  | some allowance =>
    match b2u allowance with
    | none => .error .corruption
    | some u => .ok u

/-- The function `setAllowance`. -/
def setAllowance (st : Store) (owner spender : String) (allowance : Nat) : Store :=
  PutState st (allowanceKey owner spender) (u2b allowance)

/-- An entry point that ends in `shim.Error`: the store is the one reached when
the failure happened, no event has been set. -/
def failed (e : Failure) (st : Store) : Outcome := ⟨.error e, st, []⟩

/-! ## erc20.go: the operations -/

/-- The method `init`. -/
def init (args : List String) (st : Store) : Outcome :=
  match args with
  | [owner] =>
    ⟨.ok "", setBalance st owner totalSupply, [Event.Transfer "" owner totalSupply]⟩
  | _ => failed .invalidArguments st

/-- The method `totalSupply`. -/
def totalSupplyOp (args : List String) (st : Store) : Outcome :=
  match args with
  | [] => ⟨.ok (u2b totalSupply), st, []⟩
  | _ => failed .invalidArguments st

/-- The method `balanceOf`. -/
def balanceOf (args : List String) (st : Store) : Outcome :=
  match args with
  | [owner] =>
    match getBalance st owner with
    | .error e => failed e st
    | .ok balance => ⟨.ok (u2b balance), st, []⟩
  | _ => failed .invalidArguments st

/-- The method `allowance`. -/
def allowance (args : List String) (st : Store) : Outcome :=
  match args with
  | [owner, spender] =>
    match getAllowance st owner spender with
    | .error e => failed e st
    | .ok a => ⟨.ok (u2b a), st, []⟩
  | _ => failed .invalidArguments st

/-- The method `transfer`: the debit of the sender is written before the
balance of the recipient `to` is read and credited. -/
def transfer (caller : Option String) (args : List String) (st : Store) : Outcome :=
  match args with
  | [recipient, v] =>
    match getSender caller with
    | .error e => failed e st
    | .ok sender =>
    match s2u v with
    | none => failed .parse st
    | some value =>
    match getBalance st sender with
    | .error e => failed e st
    | .ok bs =>
    match sub bs value with
    | .error e => failed e st
    | .ok bs1 =>
    let st1 := setBalance st sender bs1
    match getBalance st1 recipient with
    | .error e => failed e st1
    | .ok bt =>
    match add bt value with
    | .error e => failed e st1
    | .ok bt1 =>
    let st2 := setBalance st1 recipient bt1
    ⟨.ok "true", st2, [Event.Transfer sender recipient value]⟩
  | _ => failed .invalidArguments st

/-- The method `approve`. -/
def approve (caller : Option String) (args : List String) (st : Store) : Outcome :=
  match args with
  | [spender, v] =>
    match getSender caller with
    | .error e => failed e st
    | .ok sender =>
    match s2u v with
    | none => failed .parse st
    | some value =>
    ⟨.ok "true", setAllowance st sender spender value,
      [Event.Approval sender spender value]⟩
  | _ => failed .invalidArguments st

/-- The method `transferFrom`: the debit of `from` is written first, then the
debit of the allowance of the caller, then the credit of `to`. -/
def transferFrom (caller : Option String) (args : List String) (st : Store) : Outcome :=
  match args with
  | [src, recipient, v] =>
    match getSender caller with
    | .error e => failed e st
    | .ok sender =>
    match s2u v with
    | none => failed .parse st
    | some value =>
    match getBalance st src with
    | .error e => failed e st
    | .ok bf =>
    match sub bf value with
    | .error e => failed e st
    | .ok bf1 =>
    let st1 := setBalance st src bf1
    match getAllowance st1 src sender with
    | .error e => failed e st1
    | .ok a =>
    match sub a value with
    | .error e => failed e st1
    | .ok a1 =>
    let st2 := setAllowance st1 src sender a1
    match getBalance st2 recipient with
    | .error e => failed e st2
    | .ok bt =>
    match add bt value with
    | .error e => failed e st2
    | .ok bt1 =>
    let st3 := setBalance st2 recipient bt1
    ⟨.ok "true", st3, [Event.Transfer src recipient value]⟩
  | _ => failed .invalidArguments st

/-- The method `Init`: dispatches `"init"`, succeeds with `nil` otherwise. -/
def Init (fcn : String) (args : List String) (st : Store) : Outcome :=
  if fcn = "init" then init args st else ⟨.ok "", st, []⟩

/-- The method `Invoke`: dispatch on the function name. -/
def Invoke (caller : Option String) (fcn : String) (args : List String)
    (st : Store) : Outcome :=
  if fcn = "totalSupply" then totalSupplyOp args st
  else if fcn = "balanceOf" then balanceOf args st
  else if fcn = "allowance" then allowance args st
  else if fcn = "transfer" then transfer caller args st
  else if fcn = "approve" then approve caller args st
  else if fcn = "transferFrom" then transferFrom caller args st
  else failed .invalidFunctionName st

/-- The test for a balance key: the key starts with the tag `balance::`. -/
def isBalanceKey (k : String) : Bool := "balance::".data.isPrefixOf k.data

/-- The sum of all balance records of a store: the decoded values of the
records whose key is a balance key. -/
def balanceSum : Store → Nat
  | [] => 0
  | (k, v) :: t =>
    (if isBalanceKey k then (b2u v).getD 0 else 0) + balanceSum t

/-- One invocation of `Invoke`: the caller identity the host resolves, the
function name and the arguments. -/
structure Invocation where
  /-- The common name of the caller certificate, if there is one. -/
  caller : Option String
  /-- The function name. -/
  fcn : String
  /-- The arguments. -/
  args : List String

/-- Runs the invocations in order, each on the store its predecessor left, and
stops with `none` at the first one that ends in `shim.Error`. -/
def invokeAll : List Invocation → Store → Option Store
  | [], st => some st
  | i :: is, st =>
    match (Invoke i.caller i.fcn i.args st).result with
    | .ok _ => invokeAll is (Invoke i.caller i.fcn i.args st).store
    | .error _ => none

/-- A run of three successful invocations: alice pays bob, bob pays himself,
bob moves nothing from himself to carol. -/
def conservationRun : List Invocation :=
  [⟨some "alice", "transfer", ["bob", "1000"]⟩,
   ⟨some "bob", "transfer", ["bob", "400"]⟩,
   ⟨some "bob", "transferFrom", ["bob", "carol", "0"]⟩]

/-- A run of successful invocations of every kind the dispatcher knows: a
transfer, an approval and three reads. -/
def supplyRun : List Invocation :=
  [⟨some "alice", "transfer", ["bob", "1000"]⟩,
   ⟨some "alice", "approve", ["carol", "500"]⟩,
   ⟨none, "totalSupply", []⟩,
   ⟨none, "balanceOf", ["bob"]⟩,
   ⟨none, "allowance", ["alice", "carol"]⟩]

/-- One call of an entry point of the chaincode. -/
inductive Call where
  /-- A call of `Init` with a function name and arguments. -/
  | viaInit (fcn : String) (args : List String)
  /-- A call of `Invoke` by a caller with a function name and arguments. -/
  | viaInvoke (caller : Option String) (fcn : String) (args : List String)

/-- The outcome of one call on a store. -/
def Call.run : Call → Store → Outcome
  | .viaInit fcn args, st => Init fcn args st
  | .viaInvoke caller fcn args, st => Invoke caller fcn args st

/-- Runs the calls in order, each on the store its predecessor left, whether
that one succeeded or failed. -/
def runCalls : List Call → Store → Store
  | [], st => st
  | c :: cs, st => runCalls cs (c.run st).store

/-- Every value stored decodes: `b2u` succeeds on it. -/
def wellEncoded (st : Store) : Bool := st.all (fun kv => (b2u kv.2).isSome)

/-- A run with successful and failed calls: genesis, an approval, a spend beyond
the allowance that fails after its first write, a call of unknown name. -/
def mixedRun : List Call :=
  [.viaInit "init" ["alice"],
   .viaInvoke (some "alice") "approve" ["carol", "500"],
   .viaInvoke (some "carol") "transferFrom" ["alice", "dave", "600"],
   .viaInvoke none "mint" ["carol"]]

/-- Two stores are equivalent when `getBalance` gives the same for every
identity and `getAllowance` the same for every pair of identities; one of them
may hold an explicit `0` record where the other holds none. -/
def StoreEquiv (s1 s2 : Store) : Prop :=
  (∀ o, getBalance s1 o = getBalance s2 o) ∧
  (∀ o s, getAllowance s1 o s = getAllowance s2 o s)

/-- Two outcomes agree: the same result (success with the same payload, or the
same failure), the same events, equivalent stores. -/
def OutcomeEquiv (o1 o2 : Outcome) : Prop :=
  o1.result = o2.result ∧ o1.events = o2.events ∧ StoreEquiv o1.store o2.store

/-! ## Arithmetic guard -/

theorem add_ok {a b : Nat} (h : a + b < uint64Size) : add a b = .ok (a + b) := by
  have h1 : (a + b) % uint64Size = a + b := Nat.mod_eq_of_lt h
  have h2 : ¬ a + b < a := by omega
  simp [add, h1, h2]

theorem add_overflow {a b : Nat} (hb : b < uint64Size) (h : uint64Size ≤ a + b) :
    add a b = .error .invalidAddition := by
  have h1 : (a + b) % uint64Size < a := by
    have h2 : (a + b) % uint64Size = (a + b - uint64Size) % uint64Size := by
      conv_lhs => rw [← Nat.sub_add_cancel h, Nat.add_mod_right]
    have h3 : (a + b - uint64Size) % uint64Size ≤ a + b - uint64Size := Nat.mod_le _ _
    omega
  simp [add, h1]

theorem add_lt {a b c : Nat} (h : add a b = .ok c) : c < uint64Size := by
  unfold add at h
  simp only at h
  split at h
  · cases h
  · cases h
    exact Nat.mod_lt _ (by decide)

theorem sub_ok {a b : Nat} (h : b ≤ a) : sub a b = .ok (a - b) := by
  have h1 : ¬ b > a := by omega
  simp [sub, h1]

theorem sub_underflow {a b : Nat} (h : a < b) : sub a b = .error .invalidSubtraction := by
  simp [sub, h]

theorem sub_eq_ok {a b c : Nat} (h : sub a b = .ok c) : b ≤ a ∧ c = a - b := by
  unfold sub at h
  split at h
  · cases h
  · cases h
    exact ⟨by omega, rfl⟩

theorem add_eq_ok {a b c : Nat} (hb : b < uint64Size) (h : add a b = .ok c) :
    a + b < uint64Size ∧ c = a + b := by
  by_cases hs : a + b < uint64Size
  · rw [add_ok hs] at h
    cases h
    exact ⟨hs, rfl⟩
  · rw [add_overflow hb (by omega)] at h
    cases h

/-! ## Decimal encoding -/

theorem digit_toNat : ∀ d : Nat, d < 10 → (Char.ofNat (48 + d)).toNat = 48 + d := by
  decide

theorem parseUintLoop_append (xs ys : List Char) (n : Nat) :
    parseUintLoop (xs ++ ys) n = (parseUintLoop xs n).bind (parseUintLoop ys) := by
  induction xs generalizing n with
  | nil => simp [parseUintLoop]
  | cons c cs ih =>
    simp only [List.cons_append, parseUintLoop]
    split
    · split
      · rfl
      · split
        · rfl
        · exact ih _
    · rfl

theorem parseUintLoop_lt {cs : List Char} {n r : Nat} (hn : n < uint64Size)
    (h : parseUintLoop cs n = some r) : r < uint64Size := by
  induction cs generalizing n with
  | nil =>
    simp only [parseUintLoop, Option.some.injEq] at h
    omega
  | cons c cs ih =>
    simp only [parseUintLoop] at h
    split at h
    · split at h
      · cases h
      · split at h
        · cases h
        · exact ih (Nat.mod_lt _ (by decide)) h
    · cases h

theorem formatUintLoop_acc (fuel n : Nat) (acc : List Char) :
    formatUintLoop fuel n acc = formatUintLoop fuel n [] ++ acc := by
  induction fuel generalizing n acc with
  | zero => simp [formatUintLoop]
  | succ f ih =>
    simp only [formatUintLoop]
    split
    · simp
    · rw [ih (n / 10) (_ :: acc), ih (n / 10) [_]]
      simp

theorem formatUintLoop_ne_nil (fuel n : Nat) : formatUintLoop (fuel + 1) n [] ≠ [] := by
  simp only [formatUintLoop]
  split
  · simp
  · rw [formatUintLoop_acc]
    simp

theorem parse_digit (m d : Nat) (hd : d < 10) (hm : m * 10 + d < uint64Size) :
    parseUintLoop [Char.ofNat (48 + d)] m = some (m * 10 + d) := by
  have h1 : (Char.ofNat (48 + d)).toNat = 48 + d := digit_toNat d hd
  have h2 : ¬ m ≥ cutoff := by
    have : cutoff = 1844674407370955162 := by decide
    have : uint64Size = 18446744073709551616 := by decide
    omega
  have h3 : (m * 10 + d) % uint64Size = m * 10 + d := Nat.mod_eq_of_lt hm
  have h4 : ¬ (m * 10 + d < m * 10 ∨ m * 10 + d > maxUint64) := by
    have : maxUint64 = 18446744073709551615 := by decide
    have : uint64Size = 18446744073709551616 := by decide
    omega
  simp only [parseUintLoop, h1, h2, if_false]
  have h5 : 48 ≤ 48 + d ∧ 48 + d ≤ 57 := by omega
  simp only [h5, and_self, if_true, Nat.add_sub_cancel_left, h3, h4, if_false]

theorem parse_format (fuel n : Nat) (hn : n < 10 ^ (fuel + 1)) (hu : n < uint64Size) :
    parseUintLoop (formatUintLoop (fuel + 1) n []) 0 = some n := by
  induction fuel generalizing n with
  | zero =>
    have h : n < 10 := by simpa using hn
    simp only [formatUintLoop, h, if_true]
    have := parse_digit 0 (n % 10) (Nat.mod_lt _ (by decide)) (by omega)
    rw [this]
    congr 1
    omega
  | succ f ih =>
    rw [formatUintLoop]
    split
    · rename_i h
      have := parse_digit 0 (n % 10) (Nat.mod_lt _ (by decide)) (by omega)
      rw [this]
      congr 1
      omega
    · rw [formatUintLoop_acc, parseUintLoop_append]
      have h1 : n / 10 < 10 ^ (f + 1) := by
        rw [Nat.div_lt_iff_lt_mul (by decide)]
        rw [pow_succ] at hn
        exact hn
      have h2 : n / 10 < uint64Size := by
        have := Nat.div_le_self n 10
        omega
      rw [ih (n / 10) h1 h2]
      simp only [Option.bind]
      have h3 : n / 10 * 10 + n % 10 = n := by omega
      have := parse_digit (n / 10) (n % 10) (Nat.mod_lt _ (by decide)) (by omega)
      rw [this, h3]

/-- Decoding an encoded `uint64` gives it back. -/
theorem b2u_u2b {u : Nat} (hu : u < uint64Size) : b2u (u2b u) = some u := by
  have h1 : formatUintLoop 20 u [] ≠ [] := formatUintLoop_ne_nil 19 u
  have h2 : u < 10 ^ (19 + 1) := by
    have : uint64Size = 18446744073709551616 := by decide
    omega
  simp only [b2u, s2u, parseUint, u2b, u2s, formatUint, h1, if_false]
  exact parse_format 19 u h2 hu

theorem s2u_lt {s : String} {u : Nat} (h : s2u s = some u) : u < uint64Size := by
  unfold s2u parseUint at h
  split at h
  · cases h
  · exact parseUintLoop_lt (by decide) h

/-! ## Store and keys -/

theorem GetState_PutState_same (st : Store) (k v : String) :
    GetState (PutState st k v) k = some v := by
  induction st with
  | nil => simp [PutState, GetState]
  | cons e t ih =>
    obtain ⟨k1, v1⟩ := e
    by_cases h : k1 = k
    · simp [PutState, GetState, h]
    · simp [PutState, GetState, h, ih]

theorem GetState_PutState_other (st : Store) {k k2 : String} (v : String) (h : k ≠ k2) :
    GetState (PutState st k v) k2 = GetState st k2 := by
  induction st with
  | nil => simp [PutState, GetState, h]
  | cons e t ih =>
    obtain ⟨k1, v1⟩ := e
    by_cases h1 : k1 = k
    · subst h1
      simp [PutState, GetState, h]
    · by_cases h2 : k1 = k2
      · subst h2
        simp [PutState, GetState, h1]
      · simp [PutState, GetState, h1, h2, ih]

theorem balanceKey_data (o : String) :
    (balanceKey o).data = 'b' :: 'a' :: 'l' :: 'a' :: 'n' :: 'c' :: 'e' :: ':' :: ':' :: o.data := by
  simp [balanceKey, String.data_append]

theorem allowanceKey_data (o s : String) :
    (allowanceKey o s).data =
      'a' :: 'l' :: 'l' :: 'o' :: 'w' :: 'a' :: 'n' :: 'c' :: 'e' :: ':' :: ':' ::
        (o.data ++ ':' :: ':' :: s.data) := by
  simp [allowanceKey, String.data_append]

theorem balanceKey_inj {a b : String} (h : balanceKey a = balanceKey b) : a = b := by
  have h1 := congrArg String.data h
  rw [balanceKey_data, balanceKey_data] at h1
  simp only [List.cons.injEq, true_and] at h1
  exact String.ext h1

theorem balanceKey_ne_allowanceKey (a o s : String) : balanceKey a ≠ allowanceKey o s := by
  intro h
  have h1 := congrArg String.data h
  rw [balanceKey_data, allowanceKey_data] at h1
  simp only [List.cons.injEq] at h1
  exact absurd h1.1 (by decide)

theorem isBalanceKey_balanceKey (o : String) : isBalanceKey (balanceKey o) = true := by
  simp [isBalanceKey, balanceKey_data, List.isPrefixOf]

theorem isBalanceKey_allowanceKey (o s : String) : isBalanceKey (allowanceKey o s) = false := by
  simp [isBalanceKey, allowanceKey_data, List.isPrefixOf]

theorem getBalance_setBalance_same (st : Store) (o : String) {u : Nat} (hu : u < uint64Size) :
    getBalance (setBalance st o u) o = .ok u := by
  simp [getBalance, setBalance, GetState_PutState_same, b2u_u2b hu]

theorem getBalance_setBalance_other (st : Store) {o x : String} (u : Nat) (h : x ≠ o) :
    getBalance (setBalance st o u) x = getBalance st x := by
  have hk : balanceKey o ≠ balanceKey x := fun e => h (balanceKey_inj e).symm
  simp [getBalance, setBalance, GetState_PutState_other st _ hk]

theorem getBalance_setAllowance (st : Store) (o s x : String) (u : Nat) :
    getBalance (setAllowance st o s u) x = getBalance st x := by
  have hk : allowanceKey o s ≠ balanceKey x := fun e => balanceKey_ne_allowanceKey x o s e.symm
  simp [getBalance, setAllowance, GetState_PutState_other st _ hk]

theorem getAllowance_setBalance (st : Store) (x o s : String) (u : Nat) :
    getAllowance (setBalance st x u) o s = getAllowance st o s := by
  have hk : balanceKey x ≠ allowanceKey o s := balanceKey_ne_allowanceKey x o s
  simp [getAllowance, setBalance, GetState_PutState_other st _ hk]

theorem getAllowance_setAllowance_same (st : Store) (o s : String) {u : Nat}
    (hu : u < uint64Size) : getAllowance (setAllowance st o s u) o s = .ok u := by
  simp [getAllowance, setAllowance, GetState_PutState_same, b2u_u2b hu]

theorem getAllowance_setAllowance_other (st : Store) {o s o2 s2 : String} (u : Nat)
    (h : allowanceKey o s ≠ allowanceKey o2 s2) :
    getAllowance (setAllowance st o s u) o2 s2 = getAllowance st o2 s2 := by
  simp [getAllowance, setAllowance, GetState_PutState_other st _ h]

theorem getBalance_lt {st : Store} {o : String} {b : Nat} (h : getBalance st o = .ok b) :
    b < uint64Size := by
  unfold getBalance at h
  split at h
  · cases h
    decide
  · split at h
    · cases h
    · rename_i u hu
      cases h
      exact s2u_lt hu

theorem getAllowance_lt {st : Store} {o s : String} {a : Nat}
    (h : getAllowance st o s = .ok a) : a < uint64Size := by
  unfold getAllowance at h
  split at h
  · cases h
    decide
  · split at h
    · cases h
    · rename_i u hu
      cases h
      exact s2u_lt hu

/-! ## The sum of the balance records -/

theorem balanceSum_PutState_other (st : Store) (k v : String) (hk : isBalanceKey k = false) :
    balanceSum (PutState st k v) = balanceSum st := by
  induction st with
  | nil => simp [PutState, balanceSum, hk]
  | cons e t ih =>
    obtain ⟨k1, v1⟩ := e
    by_cases h : k1 = k
    · subst h
      simp [PutState, balanceSum, hk]
    · simp [PutState, balanceSum, h, ih]

theorem balanceSum_setBalance (st : Store) (o : String) {b u : Nat}
    (hb : getBalance st o = .ok b) (hu : u < uint64Size) :
    balanceSum (setBalance st o u) + b = balanceSum st + u := by
  have hk1 : isBalanceKey (balanceKey o) = true := isBalanceKey_balanceKey o
  unfold setBalance
  induction st with
  | nil =>
    simp only [getBalance, GetState] at hb
    cases hb
    simp [PutState, balanceSum, hk1, b2u_u2b hu]
  | cons e t ih =>
    obtain ⟨k1, v1⟩ := e
    by_cases h : k1 = balanceKey o
    · subst h
      simp only [getBalance, GetState, if_true] at hb
      split at hb
      · cases hb
      · rename_i w hw
        cases hb
        simp [PutState, balanceSum, hk1, b2u_u2b hu, hw]
        omega
    · have hb1 : getBalance t o = .ok b := by
        simpa [getBalance, GetState, h] using hb
      have := ih hb1
      simp only [PutState, h, if_false, balanceSum]
      omega

theorem balanceSum_setAllowance (st : Store) (o s : String) (u : Nat) :
    balanceSum (setAllowance st o s u) = balanceSum st :=
  balanceSum_PutState_other st _ _ (isBalanceKey_allowanceKey o s)

/-! ## Successful transfers -/

theorem transfer_ok_inv {caller : Option String} {args : List String} {st : Store}
    {p : String} (h : (transfer caller args st).result = .ok p) :
    ∃ sender recipient v value bs bt,
      caller = some sender ∧ args = [recipient, v] ∧ s2u v = some value ∧
      getBalance st sender = .ok bs ∧ value ≤ bs ∧
      getBalance (setBalance st sender (bs - value)) recipient = .ok bt ∧
      bt + value < uint64Size ∧
      transfer caller args st =
        ⟨.ok "true", setBalance (setBalance st sender (bs - value)) recipient (bt + value),
          [Event.Transfer sender recipient value]⟩ := by
  unfold transfer at h
  split at h
  · rename_i recipient v
    split at h
    · cases h
    · rename_i sender hs
      split at h
      · cases h
      · rename_i value hv
        split at h
        · cases h
        · rename_i bs hbs
          split at h
          · cases h
          · rename_i bs1 hsub
            simp only at h
            split at h
            · cases h
            · rename_i bt hbt
              split at h
              · cases h
              · rename_i bt1 hadd
                obtain ⟨hle, rfl⟩ := sub_eq_ok hsub
                obtain ⟨hlt, rfl⟩ := add_eq_ok (s2u_lt hv) hadd
                cases caller with
                | none => cases hs
                | some c =>
                  cases hs
                  refine ⟨sender, recipient, v, value, bs, bt, rfl, rfl, hv, hbs, hle, hbt, hlt, ?_⟩
                  simp [transfer, getSender, hv, hbs, hsub, hbt, hadd]
  · cases h

theorem transferFrom_ok_inv {caller : Option String} {args : List String} {st : Store}
    {p : String} (h : (transferFrom caller args st).result = .ok p) :
    ∃ sender src recipient v value bf a bt,
      caller = some sender ∧ args = [src, recipient, v] ∧ s2u v = some value ∧
      getBalance st src = .ok bf ∧ value ≤ bf ∧
      getAllowance (setBalance st src (bf - value)) src sender = .ok a ∧ value ≤ a ∧
      getBalance (setAllowance (setBalance st src (bf - value)) src sender (a - value))
        recipient = .ok bt ∧
      bt + value < uint64Size ∧
      transferFrom caller args st =
        ⟨.ok "true",
          setBalance (setAllowance (setBalance st src (bf - value)) src sender (a - value))
            recipient (bt + value),
          [Event.Transfer src recipient value]⟩ := by
  unfold transferFrom at h
  split at h
  · rename_i src recipient v
    split at h
    · cases h
    · rename_i sender hs
      split at h
      · cases h
      · rename_i value hv
        split at h
        · cases h
        · rename_i bf hbf
          split at h
          · cases h
          · rename_i bf1 hsub
            simp only at h
            split at h
            · cases h
            · rename_i a ha
              split at h
              · cases h
              · rename_i a1 hsuba
                split at h
                · cases h
                · rename_i bt hbt
                  split at h
                  · cases h
                  · rename_i bt1 hadd
                    obtain ⟨hle, rfl⟩ := sub_eq_ok hsub
                    obtain ⟨hla, rfl⟩ := sub_eq_ok hsuba
                    obtain ⟨hlt, rfl⟩ := add_eq_ok (s2u_lt hv) hadd
                    cases caller with
                    | none => cases hs
                    | some c =>
                      cases hs
                      refine ⟨sender, src, recipient, v, value, bf, a, bt, rfl, rfl, hv, hbf,
                        hle, ha, hla, hbt, hlt, ?_⟩
                      simp [transferFrom, getSender, hv, hbf, hsub, ha, hsuba, hbt, hadd]
  · cases h

theorem transfer_balanceSum {caller : Option String} {args : List String} {st : Store}
    {p : String} (h : (transfer caller args st).result = .ok p) :
    balanceSum (transfer caller args st).store = balanceSum st := by
  obtain ⟨sender, recipient, v, value, bs, bt, -, -, hv, hbs, hle, hbt, hlt, heq⟩ :=
    transfer_ok_inv h
  rw [heq]
  have hbs1 : bs - value < uint64Size := by
    have := getBalance_lt hbs
    omega
  have e1 := balanceSum_setBalance st sender hbs hbs1
  have e2 := balanceSum_setBalance _ recipient hbt hlt
  simp only
  omega

theorem transferFrom_balanceSum {caller : Option String} {args : List String} {st : Store}
    {p : String} (h : (transferFrom caller args st).result = .ok p) :
    balanceSum (transferFrom caller args st).store = balanceSum st := by
  obtain ⟨sender, src, recipient, v, value, bf, a, bt, -, -, hv, hbf, hle, ha, hla, hbt, hlt,
    heq⟩ := transferFrom_ok_inv h
  rw [heq]
  have hbf1 : bf - value < uint64Size := by
    have := getBalance_lt hbf
    omega
  have e1 := balanceSum_setBalance st src hbf hbf1
  have e2 := balanceSum_setAllowance (setBalance st src (bf - value)) src sender (a - value)
  have e3 := balanceSum_setBalance _ recipient hbt hlt
  simp only
  omega

theorem balanceSum_init (owner : String) :
    balanceSum (init [owner] []).store = totalSupply := by
  have h := balanceSum_setBalance [] owner (b := 0) (u := totalSupply) rfl (by decide)
  simpa [init] using h

theorem invokeAll_transfers_balanceSum (is : List Invocation) (st st1 : Store)
    (hf : ∀ i ∈ is, i.fcn = "transfer" ∨ i.fcn = "transferFrom")
    (h : invokeAll is st = some st1) : balanceSum st1 = balanceSum st := by
  induction is generalizing st with
  | nil =>
    simp only [invokeAll, Option.some.injEq] at h
    rw [h]
  | cons i is ih =>
    have hi := hf i (List.mem_cons_self _ _)
    have hrest : ∀ j ∈ is, j.fcn = "transfer" ∨ j.fcn = "transferFrom" :=
      fun j hj => hf j (List.mem_cons_of_mem _ hj)
    simp only [invokeAll] at h
    split at h
    · rename_i p hp
      rw [ih _ hrest h]
      rcases hi with hi | hi
      · have e : Invoke i.caller i.fcn i.args st = transfer i.caller i.args st := by
          rw [hi]; rfl
        rw [e] at hp ⊢
        exact transfer_balanceSum hp
      · have e : Invoke i.caller i.fcn i.args st = transferFrom i.caller i.args st := by
          rw [hi]; rfl
        rw [e] at hp ⊢
        exact transferFrom_balanceSum hp
    · cases h

/-- C1. Conservation: from the empty store, after one `init(owner)` and any
finite sequence of successful `transfer` and `transferFrom` invocations, by any
callers and with any arguments, the sum of all balance records is the total
supply `100000000`. -/
theorem conservation (owner : String) (is : List Invocation) (st : Store)
    (hf : ∀ i ∈ is, i.fcn = "transfer" ∨ i.fcn = "transferFrom")
    (h : invokeAll is (init [owner] []).store = some st) :
    (init [owner] []).result = .ok "" ∧ balanceSum st = 100000000 := by
  refine ⟨rfl, ?_⟩
  rw [invokeAll_transfers_balanceSum is _ st hf h, balanceSum_init]
  rfl

theorem conservation_witness :
    (∀ i ∈ conservationRun, i.fcn = "transfer" ∨ i.fcn = "transferFrom") ∧
    invokeAll conservationRun (init ["alice"] []).store
      = some [("balance::alice", "99999000"), ("balance::bob", "1000"),
          ("allowance::bob::bob", "0"), ("balance::carol", "0")] ∧
    balanceSum [("balance::alice", "99999000"), ("balance::bob", "1000"),
          ("allowance::bob::bob", "0"), ("balance::carol", "0")] = 100000000 :=
  ⟨by decide, by decide,
    (conservation "alice" conservationRun _ (by decide) (by decide)).2⟩

/-- C2. Atomic failure of `transfer`: when the value exceeds the balance of
the caller, `transfer` fails on the subtraction, the store is the one before
the call (no write was issued: the balance of the caller, of the recipient and
every other record are unchanged) and no event is emitted. -/
theorem transfer_underflow_atomic (st : Store) (caller recipient v : String)
    (value bs : Nat) (hv : s2u v = some value) (hbs : getBalance st caller = .ok bs)
    (hlt : value > bs) :
    (transfer (some caller) [recipient, v] st).result = .error .invalidSubtraction ∧
    (transfer (some caller) [recipient, v] st).store = st ∧
    (transfer (some caller) [recipient, v] st).events = [] := by
  have hsub : sub bs value = .error .invalidSubtraction := sub_underflow hlt
  simp [transfer, getSender, hv, hbs, hsub, failed]

theorem transfer_underflow_atomic_witness :
    s2u "100000001" = some 100000001 ∧
    getBalance (init ["alice"] []).store "alice" = .ok 100000000 ∧
    (transfer (some "alice") ["bob", "100000001"] (init ["alice"] []).store).result
      = .error .invalidSubtraction ∧
    (transfer (some "alice") ["bob", "100000001"] (init ["alice"] []).store).store
      = (init ["alice"] []).store ∧
    (transfer (some "alice") ["bob", "100000001"] (init ["alice"] []).store).events = [] :=
  ⟨by decide, by decide,
    transfer_underflow_atomic (init ["alice"] []).store "alice" "bob" "100000001"
      100000001 100000000 (by decide) (by decide) (by decide)⟩

/-- C5. `add` on unsigned 64-bit operands: it returns the exact sum `a + b`
when the sum is at most `2 ^ 64 - 1`, and it fails, without returning a wrapped
value, exactly when the true sum exceeds `2 ^ 64 - 1`. -/
theorem add_checked (a b : Nat) (_ha : a < 2 ^ 64) (hb : b < 2 ^ 64) :
    (a + b ≤ 2 ^ 64 - 1 → add a b = .ok (a + b)) ∧
    (2 ^ 64 - 1 < a + b → add a b = .error .invalidAddition) ∧
    ((∃ e, add a b = .error e) ↔ 2 ^ 64 - 1 < a + b) := by
  have hs : uint64Size = 2 ^ 64 := rfl
  have h1 : a + b ≤ 2 ^ 64 - 1 → add a b = .ok (a + b) := fun h =>
    add_ok (by rw [hs]; omega)
  have h2 : 2 ^ 64 - 1 < a + b → add a b = .error .invalidAddition := fun h =>
    add_overflow (by rw [hs]; exact hb) (by rw [hs]; omega)
  refine ⟨h1, h2, ?_, fun h => ⟨_, h2 h⟩⟩
  rintro ⟨e, he⟩
  by_contra hn
  rw [h1 (by omega)] at he
  cases he

theorem add_checked_witness :
    add 18446744073709551615 1 = .error .invalidAddition ∧
    add 18446744073709551614 1 = .ok 18446744073709551615 :=
  ⟨(add_checked 18446744073709551615 1 (by decide) (by decide)).2.1 (by decide),
    (add_checked 18446744073709551614 1 (by decide) (by decide)).1 (by decide)⟩

/-- C6. `sub` on unsigned 64-bit operands: it fails exactly when `b > a`, and
otherwise returns the exact difference `a - b`, so that the result plus `b`
is `a`. -/
theorem sub_checked (a b : Nat) (_ha : a < 2 ^ 64) (_hb : b < 2 ^ 64) :
    ((∃ e, sub a b = .error e) ↔ b > a) ∧
    (b > a → sub a b = .error .invalidSubtraction) ∧
    (b ≤ a → ∃ c, sub a b = .ok c ∧ c + b = a ∧ c < 2 ^ 64) := by
  have h1 : b > a → sub a b = .error .invalidSubtraction := fun h => sub_underflow h
  have h2 : b ≤ a → ∃ c, sub a b = .ok c ∧ c + b = a ∧ c < 2 ^ 64 := fun h =>
    ⟨a - b, sub_ok h, by omega, by omega⟩
  refine ⟨⟨?_, fun h => ⟨_, h1 h⟩⟩, h1, h2⟩
  rintro ⟨e, he⟩
  by_contra hn
  rw [sub_ok (by omega)] at he
  cases he

theorem sub_checked_witness :
    sub 5 7 = .error .invalidSubtraction ∧ ∃ c, sub 7 5 = .ok c ∧ c + 5 = 7 ∧ c < 2 ^ 64 :=
  ⟨(sub_checked 5 7 (by decide) (by decide)).2.1 (by decide),
    (sub_checked 7 5 (by decide) (by decide)).2.2 (by decide)⟩

/-- C7. Allowance replace semantics: after `approve(spender, v1)` followed by
`approve(spender, v2)` by the same caller, both succeed and the allowance of
(caller, spender) is `v2`, whatever `v1` and the allowance before the calls;
the operation `allowance` returns the decimal text of `v2`. -/
theorem approve_replaces (st : Store) (caller spender s1 s2 : String) (v1 v2 : Nat)
    (h1 : s2u s1 = some v1) (h2 : s2u s2 = some v2) :
    (approve (some caller) [spender, s1] st).result = .ok "true" ∧
    (approve (some caller) [spender, s2]
      (approve (some caller) [spender, s1] st).store).result = .ok "true" ∧
    getAllowance (approve (some caller) [spender, s2]
      (approve (some caller) [spender, s1] st).store).store caller spender = .ok v2 ∧
    (allowance [caller, spender] (approve (some caller) [spender, s2]
      (approve (some caller) [spender, s1] st).store).store).result = .ok (u2b v2) := by
  have e : getAllowance (setAllowance (setAllowance st caller spender v1) caller spender v2)
      caller spender = .ok v2 := getAllowance_setAllowance_same _ _ _ (s2u_lt h2)
  simp [approve, getSender, h1, h2, allowance, e]

theorem approve_replaces_witness :
    getAllowance (approve (some "alice") ["carol", "7"]
      (approve (some "alice") ["carol", "500"] []).store).store "alice" "carol" = .ok 7 :=
  (approve_replaces [] "alice" "carol" "500" "7" 500 7 (by decide) (by decide)).2.2.1

/-- C10. Postcondition of `transfer` to a recipient other than the caller, with
a value the caller holds and a credit that does not overflow: it succeeds with
payload `"true"`; the balance of the caller is the old one minus the value, the
balance of the recipient the old one plus the value, every other balance and
every allowance is unchanged, and the one event emitted is
`Transfer{from: caller, to: recipient, value}`. -/
theorem transfer_post (st : Store) (caller recipient v : String) (value bs bt : Nat)
    (hne : recipient ≠ caller) (hv : s2u v = some value)
    (hbs : getBalance st caller = .ok bs) (hbt : getBalance st recipient = .ok bt)
    (hle : value ≤ bs) (hno : bt + value ≤ 2 ^ 64 - 1) :
    (transfer (some caller) [recipient, v] st).result = .ok "true" ∧
    getBalance (transfer (some caller) [recipient, v] st).store caller = .ok (bs - value) ∧
    getBalance (transfer (some caller) [recipient, v] st).store recipient
      = .ok (bt + value) ∧
    (∀ x, x ≠ caller → x ≠ recipient →
      getBalance (transfer (some caller) [recipient, v] st).store x = getBalance st x) ∧
    (∀ o s, getAllowance (transfer (some caller) [recipient, v] st).store o s
      = getAllowance st o s) ∧
    (transfer (some caller) [recipient, v] st).events
      = [Event.Transfer caller recipient value] := by
  have hs : uint64Size = 2 ^ 64 := rfl
  have hsub : sub bs value = .ok (bs - value) := sub_ok hle
  have hadd : add bt value = .ok (bt + value) := add_ok (by rw [hs]; omega)
  have hbs1 : bs - value < uint64Size := by
    have := getBalance_lt hbs
    omega
  have hbt1 : getBalance (setBalance st caller (bs - value)) recipient = .ok bt := by
    rw [getBalance_setBalance_other st _ hne, hbt]
  have heq : transfer (some caller) [recipient, v] st =
      ⟨.ok "true", setBalance (setBalance st caller (bs - value)) recipient (bt + value),
        [Event.Transfer caller recipient value]⟩ := by
    simp [transfer, getSender, hv, hbs, hsub, hbt1, hadd]
  rw [heq]
  refine ⟨rfl, ?_, ?_, ?_, ?_, rfl⟩
  · simp only
    rw [getBalance_setBalance_other _ _ (Ne.symm hne), getBalance_setBalance_same _ _ hbs1]
  · exact getBalance_setBalance_same _ _ (by rw [hs]; omega)
  · intro x hx1 hx2
    simp only
    rw [getBalance_setBalance_other _ _ hx2, getBalance_setBalance_other _ _ hx1]
  · intro o s
    simp only
    rw [getAllowance_setBalance, getAllowance_setBalance]

theorem transfer_post_witness :
    (transfer (some "alice") ["bob", "1000"] (init ["alice"] []).store).result = .ok "true" ∧
    getBalance (transfer (some "alice") ["bob", "1000"] (init ["alice"] []).store).store
      "alice" = .ok 99999000 ∧
    getBalance (transfer (some "alice") ["bob", "1000"] (init ["alice"] []).store).store
      "bob" = .ok 1000 ∧
    (transfer (some "alice") ["bob", "1000"] (init ["alice"] []).store).events
      = [Event.Transfer "alice" "bob" 1000] :=
  have h := transfer_post (init ["alice"] []).store "alice" "bob" "1000" 1000 100000000 0
    (by decide) (by decide) (by decide) (by decide) (by decide) (by decide)
  ⟨h.1, h.2.1, h.2.2.1, h.2.2.2.2.2⟩

/-! ## Failed operations -/

theorem getBalance_error {st : Store} {o : String} {e : Failure}
    (h : getBalance st o = .error e) : e = .corruption := by
  unfold getBalance at h
  split at h
  · cases h
  · split at h
    · cases h; rfl
    · cases h

theorem getAllowance_error {st : Store} {o s : String} {e : Failure}
    (h : getAllowance st o s = .error e) : e = .corruption := by
  unfold getAllowance at h
  split at h
  · cases h
  · split at h
    · cases h; rfl
    · cases h

theorem sub_error {a b : Nat} {e : Failure} (h : sub a b = .error e) :
    e = .invalidSubtraction ∧ a < b := by
  unfold sub at h
  split at h
  · cases h
    exact ⟨rfl, by omega⟩
  · cases h

theorem add_error {a b : Nat} {e : Failure} (h : add a b = .error e) :
    e = .invalidAddition := by
  unfold add at h
  simp only at h
  split at h
  · cases h; rfl
  · cases h

theorem transfer_error_inv {caller : Option String} {args : List String} {st : Store}
    {e : Failure} (h : (transfer caller args st).result = .error e) :
    (transfer caller args st).events = [] ∧
    (((transfer caller args st).store = st ∧ e ≠ .invalidAddition) ∨
      ∃ sender recipient v value bs, caller = some sender ∧ args = [recipient, v] ∧
        s2u v = some value ∧ getBalance st sender = .ok bs ∧ value ≤ bs ∧
        (e = .invalidAddition ∨ e = .corruption) ∧
        (transfer caller args st).store = setBalance st sender (bs - value)) := by
  revert h
  unfold transfer
  split
  · rename_i recipient v
    split
    · rename_i e1 hs
      intro h
      cases caller with
      | none => cases hs; cases h; exact ⟨rfl, Or.inl ⟨rfl, by decide⟩⟩
      | some c => cases hs
    · rename_i sender hs
      split
      · intro h; cases h; exact ⟨rfl, Or.inl ⟨rfl, by decide⟩⟩
      · rename_i value hv
        split
        · rename_i e1 hbs
          intro h; cases h
          have := getBalance_error hbs
          subst this
          exact ⟨rfl, Or.inl ⟨rfl, by decide⟩⟩
        · rename_i bs hbs
          split
          · rename_i e1 hsub
            intro h; cases h
            have := (sub_error hsub).1
            subst this
            exact ⟨rfl, Or.inl ⟨rfl, by decide⟩⟩
          · rename_i bs1 hsub
            obtain ⟨hle, rfl⟩ := sub_eq_ok hsub
            have hc : caller = some sender := by
              cases caller with
              | none => cases hs
              | some c => cases hs; rfl
            simp only
            split
            · rename_i e1 hbt
              intro h; cases h
              have := getBalance_error hbt
              subst this
              exact ⟨rfl, Or.inr ⟨sender, recipient, v, value, bs, hc, rfl, hv, hbs, hle,
                Or.inr rfl, rfl⟩⟩
            · rename_i bt hbt
              split
              · rename_i e1 hadd
                intro h; cases h
                have := add_error hadd
                subst this
                exact ⟨rfl, Or.inr ⟨sender, recipient, v, value, bs, hc, rfl, hv, hbs, hle,
                  Or.inl rfl, rfl⟩⟩
              · intro h; cases h
  · intro h; cases h; exact ⟨rfl, Or.inl ⟨rfl, by decide⟩⟩

theorem transferFrom_error_inv {caller : Option String} {args : List String} {st : Store}
    {e : Failure} (h : (transferFrom caller args st).result = .error e) :
    (transferFrom caller args st).events = [] ∧
    (((transferFrom caller args st).store = st ∧ e ≠ .invalidAddition) ∨
      ∃ sender src recipient v value bf, caller = some sender ∧
        args = [src, recipient, v] ∧ s2u v = some value ∧
        getBalance st src = .ok bf ∧ value ≤ bf ∧
        (((e = .invalidSubtraction ∨ e = .corruption) ∧
            (transferFrom caller args st).store = setBalance st src (bf - value)) ∨
          ∃ a, getAllowance st src sender = .ok a ∧ value ≤ a ∧
            (e = .invalidAddition ∨ e = .corruption) ∧
            (transferFrom caller args st).store =
              setAllowance (setBalance st src (bf - value)) src sender (a - value))) := by
  revert h
  unfold transferFrom
  split
  · rename_i src recipient v
    split
    · rename_i e1 hs
      intro h
      cases caller with
      | none => cases hs; cases h; exact ⟨rfl, Or.inl ⟨rfl, by decide⟩⟩
      | some c => cases hs
    · rename_i sender hs
      split
      · intro h; cases h; exact ⟨rfl, Or.inl ⟨rfl, by decide⟩⟩
      · rename_i value hv
        split
        · rename_i e1 hbf
          intro h; cases h
          have := getBalance_error hbf
          subst this
          exact ⟨rfl, Or.inl ⟨rfl, by decide⟩⟩
        · rename_i bf hbf
          split
          · rename_i e1 hsub
            intro h; cases h
            have := (sub_error hsub).1
            subst this
            exact ⟨rfl, Or.inl ⟨rfl, by decide⟩⟩
          · rename_i bf1 hsub
            obtain ⟨hle, rfl⟩ := sub_eq_ok hsub
            have hc : caller = some sender := by
              cases caller with
              | none => cases hs
              | some c => cases hs; rfl
            simp only
            split
            · rename_i e1 ha
              intro h; cases h
              have := getAllowance_error ha
              subst this
              exact ⟨rfl, Or.inr ⟨sender, src, recipient, v, value, bf, hc, rfl, hv, hbf, hle,
                Or.inl ⟨Or.inr rfl, rfl⟩⟩⟩
            · rename_i a ha
              rw [getAllowance_setBalance] at ha
              split
              · rename_i e1 hsuba
                intro h; cases h
                have := (sub_error hsuba).1
                subst this
                exact ⟨rfl, Or.inr ⟨sender, src, recipient, v, value, bf, hc, rfl, hv, hbf,
                  hle, Or.inl ⟨Or.inl rfl, rfl⟩⟩⟩
              · rename_i a1 hsuba
                obtain ⟨hla, rfl⟩ := sub_eq_ok hsuba
                split
                · rename_i e1 hbt
                  intro h; cases h
                  have := getBalance_error hbt
                  subst this
                  exact ⟨rfl, Or.inr ⟨sender, src, recipient, v, value, bf, hc, rfl, hv, hbf,
                    hle, Or.inr ⟨a, ha, hla, Or.inr rfl, rfl⟩⟩⟩
                · rename_i bt hbt
                  split
                  · rename_i e1 hadd
                    intro h; cases h
                    have := add_error hadd
                    subst this
                    exact ⟨rfl, Or.inr ⟨sender, src, recipient, v, value, bf, hc, rfl, hv,
                      hbf, hle, Or.inr ⟨a, ha, hla, Or.inl rfl, rfl⟩⟩⟩
                  · intro h; cases h
  · intro h; cases h; exact ⟨rfl, Or.inl ⟨rfl, by decide⟩⟩

theorem init_error {args : List String} {st : Store} {e : Failure}
    (h : (init args st).result = .error e) :
    (init args st).events = [] ∧ (init args st).store = st ∧ e = .invalidArguments := by
  revert h
  unfold init
  split
  · intro h; cases h
  · intro h; cases h; exact ⟨rfl, rfl, rfl⟩

theorem totalSupplyOp_frame (args : List String) (st : Store) :
    (totalSupplyOp args st).events = [] ∧ (totalSupplyOp args st).store = st := by
  unfold totalSupplyOp
  split <;> exact ⟨rfl, rfl⟩

theorem balanceOf_frame (args : List String) (st : Store) :
    (balanceOf args st).events = [] ∧ (balanceOf args st).store = st := by
  unfold balanceOf
  split
  · split <;> exact ⟨rfl, rfl⟩
  · exact ⟨rfl, rfl⟩

theorem allowance_frame (args : List String) (st : Store) :
    (allowance args st).events = [] ∧ (allowance args st).store = st := by
  unfold allowance
  split
  · split <;> exact ⟨rfl, rfl⟩
  · exact ⟨rfl, rfl⟩

theorem approve_error {caller : Option String} {args : List String} {st : Store}
    {e : Failure} (h : (approve caller args st).result = .error e) :
    (approve caller args st).events = [] ∧ (approve caller args st).store = st := by
  revert h
  unfold approve
  split
  · split
    · intro _; exact ⟨rfl, rfl⟩
    · split
      · intro _; exact ⟨rfl, rfl⟩
      · intro h; cases h
  · intro _; exact ⟨rfl, rfl⟩

theorem Invoke_cases (caller : Option String) (fcn : String) (args : List String)
    (st : Store) :
    (fcn = "totalSupply" ∧ Invoke caller fcn args st = totalSupplyOp args st) ∨
    (fcn = "balanceOf" ∧ Invoke caller fcn args st = balanceOf args st) ∨
    (fcn = "allowance" ∧ Invoke caller fcn args st = allowance args st) ∨
    (fcn = "transfer" ∧ Invoke caller fcn args st = transfer caller args st) ∨
    (fcn = "approve" ∧ Invoke caller fcn args st = approve caller args st) ∨
    (fcn = "transferFrom" ∧ Invoke caller fcn args st = transferFrom caller args st) ∨
    (fcn ≠ "transfer" ∧ fcn ≠ "transferFrom" ∧
      Invoke caller fcn args st = failed .invalidFunctionName st) := by
  unfold Invoke
  split_ifs with h1 h2 h3 h4 h5 h6
  · exact Or.inl ⟨h1, rfl⟩
  · exact Or.inr (Or.inl ⟨h2, rfl⟩)
  · exact Or.inr (Or.inr (Or.inl ⟨h3, rfl⟩))
  · exact Or.inr (Or.inr (Or.inr (Or.inl ⟨h4, rfl⟩)))
  · exact Or.inr (Or.inr (Or.inr (Or.inr (Or.inl ⟨h5, rfl⟩))))
  · exact Or.inr (Or.inr (Or.inr (Or.inr (Or.inr (Or.inl ⟨h6, rfl⟩)))))
  · exact Or.inr (Or.inr (Or.inr (Or.inr (Or.inr (Or.inr ⟨h4, h6, rfl⟩)))))

/-- C3 (counterexample). After `init(alice)` carol has no allowance from alice;
her `transferFrom(alice, dave, 500)` fails on the subtraction, yet the store it
leaves holds the debit of alice: her balance record reads `99999500`. -/
theorem transferFrom_underflow_writes :
    s2u "500" = some 500 ∧
    getAllowance (init ["alice"] []).store "alice" "carol" = .ok 0 ∧
    (transferFrom (some "carol") ["alice", "dave", "500"] (init ["alice"] []).store).result
      = .error .invalidSubtraction ∧
    getBalance (init ["alice"] []).store "alice" = .ok 100000000 ∧
    getBalance
      (transferFrom (some "carol") ["alice", "dave", "500"] (init ["alice"] []).store).store
      "alice" = .ok 99999500 ∧
    (transferFrom (some "carol") ["alice", "dave", "500"] (init ["alice"] []).store).store
      ≠ (init ["alice"] []).store := by
  decide

/-- C3 (amended). When the value exceeds the allowance of the caller and the
balance record of `from` is readable, `transferFrom` fails on a subtraction and
emits no event; no allowance and no balance other than that of `from` is
changed. The debit of `from` is written before the allowance is checked: the
store left is the one before the call when the value exceeds the balance of
`from`, and otherwise that store with the balance of `from` reduced by the
value. -/
theorem transferFrom_allowance_underflow (st : Store) (caller src recipient v : String)
    (value a bf : Nat) (hv : s2u v = some value)
    (ha : getAllowance st src caller = .ok a) (hlt : value > a)
    (hbf : getBalance st src = .ok bf) :
    (transferFrom (some caller) [src, recipient, v] st).result
      = .error .invalidSubtraction ∧
    (transferFrom (some caller) [src, recipient, v] st).events = [] ∧
    (transferFrom (some caller) [src, recipient, v] st).store
      = (if value ≤ bf then setBalance st src (bf - value) else st) ∧
    (∀ o s, getAllowance (transferFrom (some caller) [src, recipient, v] st).store o s
      = getAllowance st o s) ∧
    (∀ x, x ≠ src →
      getBalance (transferFrom (some caller) [src, recipient, v] st).store x
        = getBalance st x) := by
  by_cases hle : value ≤ bf
  · have hsub : sub bf value = .ok (bf - value) := sub_ok hle
    have ha1 : getAllowance (setBalance st src (bf - value)) src caller = .ok a := by
      rw [getAllowance_setBalance, ha]
    have hsuba : sub a value = .error .invalidSubtraction := sub_underflow hlt
    have heq : transferFrom (some caller) [src, recipient, v] st
        = failed .invalidSubtraction (setBalance st src (bf - value)) := by
      simp [transferFrom, getSender, hv, hbf, hsub, ha1, hsuba]
    rw [heq]
    refine ⟨rfl, rfl, by simp [failed, hle], ?_, ?_⟩
    · intro o s
      exact getAllowance_setBalance _ _ _ _ _
    · intro x hx
      exact getBalance_setBalance_other _ _ hx
  · have hsub : sub bf value = .error .invalidSubtraction := sub_underflow (by omega)
    have heq : transferFrom (some caller) [src, recipient, v] st
        = failed .invalidSubtraction st := by
      simp [transferFrom, getSender, hv, hbf, hsub]
    rw [heq]
    exact ⟨rfl, rfl, by simp [failed, hle], fun _ _ => rfl, fun _ _ => rfl⟩

theorem transferFrom_allowance_underflow_witness :
    (transferFrom (some "carol") ["alice", "dave", "600"]
      (approve (some "alice") ["carol", "500"] (init ["alice"] []).store).store).result
      = .error .invalidSubtraction ∧
    (transferFrom (some "carol") ["alice", "dave", "600"]
      (approve (some "alice") ["carol", "500"] (init ["alice"] []).store).store).events
      = [] :=
  have h := transferFrom_allowance_underflow
    (approve (some "alice") ["carol", "500"] (init ["alice"] []).store).store
    "carol" "alice" "dave" "600" 600 500 100000000
    (by decide) (by decide) (by decide) (by decide)
  ⟨h.1, h.2.1⟩

/-- C4 (counterexample). Two failed invocations that leave a store other than
the one before the call: a `transferFrom` beyond the allowance, after
`init(alice)`, and a `transfer` whose credit overflows the balance of the
recipient. No event is emitted in either. -/
theorem failed_invocation_writes :
    ((Invoke (some "bob") "transferFrom" ["alice", "bob", "1"] (init ["alice"] []).store).result
        = .error .invalidSubtraction ∧
      (Invoke (some "bob") "transferFrom" ["alice", "bob", "1"] (init ["alice"] []).store).store
        = [("balance::alice", "99999999")] ∧
      (init ["alice"] []).store = [("balance::alice", "100000000")]) ∧
    ((Invoke (some "alice") "transfer" ["bob", "1"]
        [("balance::alice", "5"), ("balance::bob", "18446744073709551615")]).result
        = .error .invalidAddition ∧
      (Invoke (some "alice") "transfer" ["bob", "1"]
        [("balance::alice", "5"), ("balance::bob", "18446744073709551615")]).store
        = [("balance::alice", "4"), ("balance::bob", "18446744073709551615")]) := by
  decide

/-! ## Allowance keys -/

/-- C8 (failing input). On the empty store `approve("b::c", 5)` by caller `a`
succeeds and writes the record `allowance::a::b::c`, which is also the record
of the pair (`a::b`, `c`): the allowance of that other pair goes from `0` to
`5`. -/
theorem approve_changes_other_pair :
    ("a::b", "c") ≠ ("a", "b::c") ∧
    (approve (some "a") ["b::c", "5"] []).result = .ok "true" ∧
    getAllowance [] "a::b" "c" = .ok 0 ∧
    getAllowance (approve (some "a") ["b::c", "5"] []).store "a::b" "c" = .ok 5 := by
  decide

/-- C9 (failing input). The identities `a` and `a::a` differ, yet the key
derived for (`a`, `a::a`) is the key derived for (`a::a`, `a`). -/
theorem allowanceKey_swap_collision :
    "a" ≠ "a::a" ∧ allowanceKey "a" "a::a" = allowanceKey "a::a" "a" ∧
    allowanceKey "a" "a::a" = "allowance::a::a::a" := by
  decide

/-! ## Postcondition of `transferFrom`, genesis -/

/-- C11. Postcondition of `transferFrom` to a recipient other than `from`, with
a value within the balance of `from` and the allowance of the caller and a
credit that does not overflow: it succeeds; afterwards the balance of `from`
and the allowance of (`from`, caller) are each reduced by the value, the
balance of the recipient is increased by the value, and every other balance is
unchanged. -/
theorem transferFrom_post (st : Store) (caller src recipient v : String)
    (value bf a bt : Nat) (hne : recipient ≠ src) (hv : s2u v = some value)
    (hbf : getBalance st src = .ok bf) (ha : getAllowance st src caller = .ok a)
    (hbt : getBalance st recipient = .ok bt)
    (hle : value ≤ bf) (hla : value ≤ a) (hno : bt + value ≤ 2 ^ 64 - 1) :
    (transferFrom (some caller) [src, recipient, v] st).result = .ok "true" ∧
    getBalance (transferFrom (some caller) [src, recipient, v] st).store src
      = .ok (bf - value) ∧
    getAllowance (transferFrom (some caller) [src, recipient, v] st).store src caller
      = .ok (a - value) ∧
    getBalance (transferFrom (some caller) [src, recipient, v] st).store recipient
      = .ok (bt + value) ∧
    (∀ x, x ≠ src → x ≠ recipient →
      getBalance (transferFrom (some caller) [src, recipient, v] st).store x
        = getBalance st x) ∧
    (transferFrom (some caller) [src, recipient, v] st).events
      = [Event.Transfer src recipient value] := by
  have hs : uint64Size = 2 ^ 64 := rfl
  have hsub : sub bf value = .ok (bf - value) := sub_ok hle
  have hsuba : sub a value = .ok (a - value) := sub_ok hla
  have hadd : add bt value = .ok (bt + value) := add_ok (by rw [hs]; omega)
  have hbf1 : bf - value < uint64Size := by
    have := getBalance_lt hbf
    omega
  have ha1 : a - value < uint64Size := by
    have := getAllowance_lt ha
    omega
  have ha2 : getAllowance (setBalance st src (bf - value)) src caller = .ok a := by
    rw [getAllowance_setBalance, ha]
  have hbt1 : getBalance (setAllowance (setBalance st src (bf - value)) src caller
      (a - value)) recipient = .ok bt := by
    rw [getBalance_setAllowance, getBalance_setBalance_other st _ hne, hbt]
  have heq : transferFrom (some caller) [src, recipient, v] st =
      ⟨.ok "true",
        setBalance (setAllowance (setBalance st src (bf - value)) src caller (a - value))
          recipient (bt + value),
        [Event.Transfer src recipient value]⟩ := by
    simp [transferFrom, getSender, hv, hbf, hsub, ha2, hsuba, hbt1, hadd]
  rw [heq]
  refine ⟨rfl, ?_, ?_, ?_, ?_, rfl⟩
  · simp only
    rw [getBalance_setBalance_other _ _ (Ne.symm hne), getBalance_setAllowance,
      getBalance_setBalance_same _ _ hbf1]
  · simp only
    rw [getAllowance_setBalance, getAllowance_setAllowance_same _ _ _ ha1]
  · exact getBalance_setBalance_same _ _ (by rw [hs]; omega)
  · intro x hx1 hx2
    simp only
    rw [getBalance_setBalance_other _ _ hx2, getBalance_setAllowance,
      getBalance_setBalance_other _ _ hx1]

theorem transferFrom_post_witness :
    (approve (some "alice") ["carol", "500"] (init ["alice"] []).store).result = .ok "true" ∧
    (transferFrom (some "carol") ["alice", "dave", "500"]
      (approve (some "alice") ["carol", "500"] (init ["alice"] []).store).store).result
      = .ok "true" ∧
    getBalance (transferFrom (some "carol") ["alice", "dave", "500"]
      (approve (some "alice") ["carol", "500"] (init ["alice"] []).store).store).store
      "alice" = .ok 99999500 ∧
    getAllowance (transferFrom (some "carol") ["alice", "dave", "500"]
      (approve (some "alice") ["carol", "500"] (init ["alice"] []).store).store).store
      "alice" "carol" = .ok 0 ∧
    getBalance (transferFrom (some "carol") ["alice", "dave", "500"]
      (approve (some "alice") ["carol", "500"] (init ["alice"] []).store).store).store
      "dave" = .ok 500 :=
  have h := transferFrom_post
    (approve (some "alice") ["carol", "500"] (init ["alice"] []).store).store
    "carol" "alice" "dave" "500" 500 100000000 500 0
    (by decide) (by decide) (by decide) (by decide) (by decide) (by decide) (by decide)
    (by decide)
  ⟨by decide, h.1, h.2.1, h.2.2.1, h.2.2.2.1⟩

/-- C12. Genesis: `init(owner)` on the empty store succeeds, also through the
entry point `Init`; afterwards `balanceOf(owner)` returns `100000000`,
`balanceOf(x)` returns `0` for every other identity, every allowance is `0`,
and the one event emitted is `Transfer{from: "", to: owner, value: 100000000}`. -/
theorem genesis (owner : String) :
    Init "init" [owner] [] = init [owner] [] ∧
    (init [owner] []).result = .ok "" ∧
    getBalance (init [owner] []).store owner = .ok 100000000 ∧
    (balanceOf [owner] (init [owner] []).store).result = .ok "100000000" ∧
    (∀ x, x ≠ owner →
      getBalance (init [owner] []).store x = .ok 0 ∧
      (balanceOf [x] (init [owner] []).store).result = .ok "0") ∧
    (∀ o s, getAllowance (init [owner] []).store o s = .ok 0 ∧
      (allowance [o, s] (init [owner] []).store).result = .ok "0") ∧
    (init [owner] []).events = [Event.Transfer "" owner 100000000] := by
  have hst : (init [owner] []).store = setBalance [] owner totalSupply := rfl
  have hb : getBalance (init [owner] []).store owner = .ok 100000000 := by
    rw [hst]
    exact getBalance_setBalance_same _ _ (by decide)
  have hx : ∀ x, x ≠ owner → getBalance (init [owner] []).store x = .ok 0 := by
    intro x hx
    rw [hst, getBalance_setBalance_other _ _ hx]
    rfl
  have ha : ∀ o s, getAllowance (init [owner] []).store o s = .ok 0 := by
    intro o s
    rw [hst, getAllowance_setBalance]
    rfl
  refine ⟨rfl, rfl, hb, ?_, ?_, ?_, rfl⟩
  · simp only [balanceOf, hb]
    decide
  · intro x hne
    refine ⟨hx x hne, ?_⟩
    simp only [balanceOf, hx x hne]
    decide
  · intro o s
    refine ⟨ha o s, ?_⟩
    simp only [allowance, ha o s]
    decide

theorem genesis_witness :
    (balanceOf ["alice"] (init ["alice"] []).store).result = .ok "100000000" ∧
    (balanceOf ["bob"] (init ["alice"] []).store).result = .ok "0" ∧
    (init ["alice"] []).events = [Event.Transfer "" "alice" 100000000] :=
  have h := genesis "alice"
  ⟨h.2.2.2.1, (h.2.2.2.2.1 "bob" (by decide)).2, h.2.2.2.2.2.2⟩

/-! ## No unauthorized spend -/

theorem approve_ok_inv {caller : Option String} {args : List String} {st : Store}
    {p : String} (h : (approve caller args st).result = .ok p) :
    ∃ sender spender v value,
      caller = some sender ∧ args = [spender, v] ∧ s2u v = some value ∧
      approve caller args st =
        ⟨.ok "true", setAllowance st sender spender value,
          [Event.Approval sender spender value]⟩ := by
  unfold approve at h
  split at h
  · rename_i spender v
    split at h
    · cases h
    · rename_i sender hs
      split at h
      · cases h
      · rename_i value hv
        cases caller with
        | none => cases hs
        | some c =>
          cases hs
          refine ⟨sender, spender, v, value, rfl, rfl, hv, ?_⟩
          simp [approve, getSender, hv]
  · cases h

/-- C13. No unauthorized spend: when a successful `transfer`, `approve` or
`transferFrom` leaves the balance of an identity `x` smaller than before, the
call is a `transfer` whose caller is `x`, or it is a
`transferFrom(from = x, to, value)` whose caller had an allowance from `x` of
at least the value in the state before the call. -/
theorem no_unauthorized_spend (st : Store) (caller : Option String) (fcn : String)
    (args : List String) (p x : String) (b b1 : Nat)
    (hf : fcn = "transfer" ∨ fcn = "approve" ∨ fcn = "transferFrom")
    (hok : (Invoke caller fcn args st).result = .ok p)
    (hb : getBalance st x = .ok b)
    (hb1 : getBalance (Invoke caller fcn args st).store x = .ok b1)
    (hlt : b1 < b) :
    (fcn = "transfer" ∧ caller = some x) ∨
    (fcn = "transferFrom" ∧ ∃ c recipient v value a,
      caller = some c ∧ args = [x, recipient, v] ∧ s2u v = some value ∧
      getAllowance st x c = .ok a ∧ value ≤ a) := by
  rcases hf with hf | hf | hf
  · subst hf
    have he : Invoke caller "transfer" args st = transfer caller args st := rfl
    rw [he] at hok hb1
    obtain ⟨sender, recipient, v, value, bs, bt, hc, -, hv, hbs, hle, hbt, hno, heq⟩ :=
      transfer_ok_inv hok
    rw [heq] at hb1
    simp only at hb1
    by_cases hxs : x = sender
    · subst hxs
      exact Or.inl ⟨rfl, hc⟩
    · exfalso
      by_cases hxr : x = recipient
      · subst hxr
        rw [getBalance_setBalance_same _ _ hno] at hb1
        rw [getBalance_setBalance_other _ _ hxs, hb] at hbt
        cases hbt
        cases hb1
        omega
      · rw [getBalance_setBalance_other _ _ hxr, getBalance_setBalance_other _ _ hxs,
          hb] at hb1
        cases hb1
        omega
  · subst hf
    have he : Invoke caller "approve" args st = approve caller args st := rfl
    rw [he] at hok hb1
    obtain ⟨sender, spender, v, value, -, -, -, heq⟩ := approve_ok_inv hok
    rw [heq] at hb1
    simp only at hb1
    rw [getBalance_setAllowance, hb] at hb1
    cases hb1
    omega
  · subst hf
    have he : Invoke caller "transferFrom" args st = transferFrom caller args st := rfl
    rw [he] at hok hb1
    obtain ⟨sender, src, recipient, v, value, bf, a, bt, hc, hargs, hv, hbf, hle, ha, hla,
      hbt, hno, heq⟩ := transferFrom_ok_inv hok
    rw [heq] at hb1
    simp only at hb1
    rw [getAllowance_setBalance] at ha
    by_cases hxs : x = src
    · subst hxs
      exact Or.inr ⟨rfl, sender, recipient, v, value, a, hc, hargs, hv, ha, hla⟩
    · exfalso
      by_cases hxr : x = recipient
      · subst hxr
        rw [getBalance_setBalance_same _ _ hno] at hb1
        rw [getBalance_setAllowance, getBalance_setBalance_other _ _ hxs, hb] at hbt
        cases hbt
        cases hb1
        omega
      · rw [getBalance_setBalance_other _ _ hxr, getBalance_setAllowance,
          getBalance_setBalance_other _ _ hxs, hb] at hb1
        cases hb1
        omega

theorem no_unauthorized_spend_witness :
    getBalance (init ["alice"] []).store "alice" = .ok 100000000 ∧
    getBalance (Invoke (some "alice") "transfer" ["bob", "1000"]
      (init ["alice"] []).store).store "alice" = .ok 99999000 ∧
    (("transfer" = "transfer" ∧ some "alice" = some "alice") ∨
      ("transfer" = "transferFrom" ∧ ∃ c recipient v value a,
        some "alice" = some c ∧ ["bob", "1000"] = ["alice", recipient, v] ∧
        s2u v = some value ∧
        getAllowance (init ["alice"] []).store "alice" c = .ok a ∧ value ≤ a)) :=
  ⟨by decide, by decide,
    no_unauthorized_spend (init ["alice"] []).store (some "alice") "transfer"
      ["bob", "1000"] "true" "alice" 100000000 99999000 (Or.inl rfl) (by decide)
      (by decide) (by decide) (by decide)⟩

/-! ## Supply after genesis, arity -/

theorem Invoke_balanceSum {caller : Option String} {fcn : String} {args : List String}
    {st : Store} {p : String} (h : (Invoke caller fcn args st).result = .ok p) :
    balanceSum (Invoke caller fcn args st).store = balanceSum st := by
  rcases Invoke_cases caller fcn args st with ⟨-, he⟩ | ⟨-, he⟩ | ⟨-, he⟩ | ⟨-, he⟩ |
    ⟨-, he⟩ | ⟨-, he⟩ | ⟨-, -, he⟩
  · rw [he, (totalSupplyOp_frame args st).2]
  · rw [he, (balanceOf_frame args st).2]
  · rw [he, (allowance_frame args st).2]
  · rw [he] at h ⊢
    exact transfer_balanceSum h
  · rw [he] at h ⊢
    obtain ⟨sender, spender, v, value, -, -, -, heq⟩ := approve_ok_inv h
    rw [heq]
    exact balanceSum_setAllowance _ _ _ _
  · rw [he] at h ⊢
    exact transferFrom_balanceSum h
  · rw [he] at h
    cases h

theorem invokeAll_balanceSum (is : List Invocation) (st st1 : Store)
    (h : invokeAll is st = some st1) : balanceSum st1 = balanceSum st := by
  induction is generalizing st with
  | nil =>
    simp only [invokeAll, Option.some.injEq] at h
    rw [h]
  | cons i is ih =>
    simp only [invokeAll] at h
    split at h
    · rename_i p hp
      rw [ih _ h]
      exact Invoke_balanceSum hp
    · cases h

/-- C14 (counterexample). A second `init`, for bob, after `init(alice)` is
accepted and leaves two balance records of `100000000` each: the sum of the
balances is `200000000`. -/
theorem second_init_mints :
    (Init "init" ["alice"] []).result = .ok "" ∧
    (Init "init" ["bob"] (Init "init" ["alice"] []).store).result = .ok "" ∧
    (Init "init" ["bob"] (Init "init" ["alice"] []).store).store
      = [("balance::alice", "100000000"), ("balance::bob", "100000000")] ∧
    balanceSum (Init "init" ["bob"] (Init "init" ["alice"] []).store).store
      = 200000000 := by
  decide

/-- C14 (amended). In every state reached from the empty store by one `init`
followed by any sequence of successful invocations of `Invoke` (`totalSupply`,
`balanceOf`, `allowance`, `transfer`, `approve`, `transferFrom`) the sum of the
balance records is `100000000`: none of them creates or destroys tokens. A
further `init(owner)` is accepted in such a state and overwrites the balance
of the owner with `100000000`, so that the sum grows by `100000000` minus the
balance the owner had. -/
theorem supply_after_genesis (owner : String) (is : List Invocation) (st : Store)
    (h : invokeAll is (init [owner] []).store = some st) :
    balanceSum st = 100000000 ∧
    ∀ owner2 b, getBalance st owner2 = .ok b →
      (Init "init" [owner2] st).result = .ok "" ∧
      balanceSum (Init "init" [owner2] st).store + b = 100000000 + 100000000 := by
  have hsum : balanceSum st = 100000000 := by
    rw [invokeAll_balanceSum is _ st h, balanceSum_init]
    rfl
  refine ⟨hsum, ?_⟩
  intro owner2 b hb
  refine ⟨rfl, ?_⟩
  have e : (Init "init" [owner2] st).store = setBalance st owner2 totalSupply := rfl
  have := balanceSum_setBalance st owner2 (u := totalSupply) hb (by decide)
  rw [e, this, hsum]
  rfl

theorem supply_after_genesis_witness :
    invokeAll supplyRun (init ["alice"] []).store
      = some [("balance::alice", "99999000"), ("balance::bob", "1000"),
          ("allowance::alice::carol", "500")] ∧
    balanceSum [("balance::alice", "99999000"), ("balance::bob", "1000"),
          ("allowance::alice::carol", "500")] = 100000000 :=
  ⟨by decide, (supply_after_genesis "alice" supplyRun _ (by decide)).1⟩

theorem init_arity {args : List String} (st : Store) (h : args.length ≠ 1) :
    init args st = failed .invalidArguments st := by
  unfold init
  split
  · simp at h
  · rfl

theorem totalSupplyOp_arity {args : List String} (st : Store) (h : args.length ≠ 0) :
    totalSupplyOp args st = failed .invalidArguments st := by
  unfold totalSupplyOp
  split
  · simp at h
  · rfl

theorem balanceOf_arity {args : List String} (st : Store) (h : args.length ≠ 1) :
    balanceOf args st = failed .invalidArguments st := by
  unfold balanceOf
  split
  · simp at h
  · rfl

theorem allowance_arity {args : List String} (st : Store) (h : args.length ≠ 2) :
    allowance args st = failed .invalidArguments st := by
  unfold allowance
  split
  · simp at h
  · rfl

theorem transfer_arity (caller : Option String) {args : List String} (st : Store)
    (h : args.length ≠ 2) : transfer caller args st = failed .invalidArguments st := by
  unfold transfer
  split
  · simp at h
  · rfl

theorem approve_arity (caller : Option String) {args : List String} (st : Store)
    (h : args.length ≠ 2) : approve caller args st = failed .invalidArguments st := by
  unfold approve
  split
  · simp at h
  · rfl

theorem transferFrom_arity (caller : Option String) {args : List String} (st : Store)
    (h : args.length ≠ 3) : transferFrom caller args st = failed .invalidArguments st := by
  unfold transferFrom
  split
  · simp at h
  · rfl

/-- C15. Arity validation: an argument list of the wrong length (`init` not 1,
`totalSupply` not 0, `balanceOf` not 1, `allowance` not 2, `transfer` not 2,
`approve` not 2, `transferFrom` not 3) makes the operation fail with
`invalid arguments`, with the store unchanged and no event, whether or not the
host can resolve the caller and whatever the arguments are: the arity is
checked before the identity is resolved and before any argument is parsed. -/
theorem arity_validation (caller : Option String) (args : List String) (st : Store) :
    (args.length ≠ 1 →
      Init "init" args st = ⟨.error .invalidArguments, st, []⟩) ∧
    (args.length ≠ 0 →
      Invoke caller "totalSupply" args st = ⟨.error .invalidArguments, st, []⟩) ∧
    (args.length ≠ 1 →
      Invoke caller "balanceOf" args st = ⟨.error .invalidArguments, st, []⟩) ∧
    (args.length ≠ 2 →
      Invoke caller "allowance" args st = ⟨.error .invalidArguments, st, []⟩) ∧
    (args.length ≠ 2 →
      Invoke caller "transfer" args st = ⟨.error .invalidArguments, st, []⟩) ∧
    (args.length ≠ 2 →
      Invoke caller "approve" args st = ⟨.error .invalidArguments, st, []⟩) ∧
    (args.length ≠ 3 →
      Invoke caller "transferFrom" args st = ⟨.error .invalidArguments, st, []⟩) :=
  ⟨fun h => init_arity st h, fun h => totalSupplyOp_arity st h,
    fun h => balanceOf_arity st h, fun h => allowance_arity st h,
    fun h => transfer_arity caller st h, fun h => approve_arity caller st h,
    fun h => transferFrom_arity caller st h⟩

theorem arity_validation_witness :
    Invoke none "transfer" ["bob"] [("balance::alice", "5")]
      = ⟨.error .invalidArguments, [("balance::alice", "5")], []⟩ ∧
    Invoke none "transferFrom" ["alice", "bob", "x", "1"] [("balance::alice", "5")]
      = ⟨.error .invalidArguments, [("balance::alice", "5")], []⟩ :=
  ⟨(arity_validation none ["bob"] [("balance::alice", "5")]).2.2.2.2.1 (by decide),
    (arity_validation none ["alice", "bob", "x", "1"]
      [("balance::alice", "5")]).2.2.2.2.2.2 (by decide)⟩

/-! ## Canonical decimal text -/

theorem digitChar_eq : ∀ d : Nat, d < 10 → Nat.digitChar d = Char.ofNat (48 + d) := by
  decide

theorem formatUintLoop_eq_toDigitsCore (fuel : Nat) :
    ∀ (n k : Nat) (acc : List Char), n < 10 ^ (fuel + 1) → n < k →
      formatUintLoop (fuel + 1) n acc = Nat.toDigitsCore 10 k n acc := by
  induction fuel with
  | zero =>
    intro n k acc hn hk
    have h10 : n < 10 := by simpa using hn
    obtain ⟨k1, rfl⟩ : ∃ k1, k = k1 + 1 := ⟨k - 1, by omega⟩
    have hd : n / 10 = 0 := by omega
    simp only [formatUintLoop, h10, if_true, Nat.toDigitsCore, hd]
    rw [digitChar_eq _ (Nat.mod_lt _ (by decide))]
  | succ f ih =>
    intro n k acc hn hk
    obtain ⟨k1, rfl⟩ : ∃ k1, k = k1 + 1 := ⟨k - 1, by omega⟩
    rw [formatUintLoop, Nat.toDigitsCore]
    rw [digitChar_eq _ (Nat.mod_lt _ (by decide))]
    by_cases h10 : n < 10
    · have hd : n / 10 = 0 := by omega
      simp only [h10, if_true, hd]
    · have hd : ¬ n / 10 = 0 := by omega
      simp only [h10, if_false, hd]
      apply ih
      · rw [Nat.div_lt_iff_lt_mul (by decide)]
        rw [pow_succ] at hn
        exact hn
      · omega

theorem formatUintLoop_digits (fuel n : Nat) :
    ∀ c ∈ formatUintLoop fuel n [], 48 ≤ c.toNat ∧ c.toNat ≤ 57 := by
  induction fuel generalizing n with
  | zero => simp [formatUintLoop]
  | succ f ih =>
    intro c hc
    have hd : (Char.ofNat (48 + n % 10)).toNat = 48 + n % 10 :=
      digit_toNat _ (Nat.mod_lt _ (by decide))
    rw [formatUintLoop] at hc
    split at hc
    · simp only [List.mem_singleton] at hc
      rw [hc, hd]
      omega
    · rw [formatUintLoop_acc] at hc
      simp only [List.mem_append, List.mem_singleton] at hc
      rcases hc with hc | hc
      · exact ih _ c hc
      · rw [hc, hd]
        omega

theorem formatUintLoop_head (fuel : Nat) :
    ∀ n, 0 < n → n < 10 ^ (fuel + 1) →
      ∃ d rest, formatUintLoop (fuel + 1) n [] = Char.ofNat (48 + d) :: rest ∧
        0 < d ∧ d < 10 := by
  induction fuel with
  | zero =>
    intro n h0 hn
    have h10 : n < 10 := by simpa using hn
    refine ⟨n % 10, [], ?_, by omega, by omega⟩
    simp [formatUintLoop, h10]
  | succ f ih =>
    intro n h0 hn
    rw [formatUintLoop]
    by_cases h10 : n < 10
    · refine ⟨n % 10, [], ?_, by omega, by omega⟩
      simp [h10]
    · simp only [h10, if_false]
      have h1 : n / 10 < 10 ^ (f + 1) := by
        rw [Nat.div_lt_iff_lt_mul (by decide)]
        rw [pow_succ] at hn
        exact hn
      obtain ⟨d, rest, he, hd0, hd10⟩ := ih (n / 10) (by omega) h1
      rw [formatUintLoop_acc, he]
      exact ⟨d, rest ++ [Char.ofNat (48 + n % 10)], rfl, hd0, hd10⟩

/-- C16. Encoding round trip, for every unsigned 64-bit `u`: decoding the
encoding gives `u` back without failure; the encoding is the canonical base-10
text of `u`, that is, it is the decimal text `Nat.repr u`, it is not empty, it
holds ASCII digits only and it starts with `0` only when `u = 0`; and
`getBalance` after `setBalance(id, u)` returns `u`. -/
theorem encoding_round_trip (u : Nat) (hu : u < 2 ^ 64) :
    b2u (u2b u) = some u ∧
    u2b u = Nat.repr u ∧
    (u2b u).data ≠ [] ∧
    (∀ c ∈ (u2b u).data, 48 ≤ c.toNat ∧ c.toNat ≤ 57) ∧
    ((u2b u).data.head? = some '0' → u = 0) ∧
    (∀ st id, getBalance (setBalance st id u) id = .ok u) := by
  have hs : u < uint64Size := hu
  have h20 : u < 10 ^ (19 + 1) := by omega
  refine ⟨b2u_u2b hs, ?_, formatUintLoop_ne_nil 19 u, formatUintLoop_digits 20 u, ?_,
    fun st id => getBalance_setBalance_same st id hs⟩
  · have := formatUintLoop_eq_toDigitsCore 19 u (u + 1) [] h20 (by omega)
    simp only [u2b, u2s, formatUint, Nat.repr, Nat.toDigits, List.asString]
    rw [this]
  · intro hh
    by_contra h0
    obtain ⟨d, rest, he, hd0, hd10⟩ := formatUintLoop_head 19 u (by omega) h20
    have he1 : (u2b u).data = Char.ofNat (48 + d) :: rest := he
    rw [he1] at hh
    simp only [List.head?_cons, Option.some.injEq] at hh
    have h1 := digit_toNat d hd10
    rw [hh] at h1
    have h2 : ('0' : Char).toNat = 48 := by decide
    omega

theorem encoding_round_trip_witness :
    b2u (u2b 18446744073709551615) = some 18446744073709551615 ∧
    u2b 18446744073709551615 = "18446744073709551615" ∧
    getBalance (setBalance [] "alice" 18446744073709551615) "alice"
      = .ok 18446744073709551615 :=
  have h := encoding_round_trip 18446744073709551615 (by decide)
  ⟨h.1, by decide, h.2.2.2.2.2 [] "alice"⟩

/-! ## Reads, exact success condition of `transfer` -/

/-- C17. Reads are pure: `totalSupply`, `balanceOf` and `allowance` leave the
store unchanged and emit no event, whatever the arguments, so that calling one
of them again returns the same outcome; `totalSupply` returns the text
`100000000`, `balanceOf` and `allowance` return the decimal text of the stored
quantity, which is `0` when there is no record. -/
theorem reads_pure (caller : Option String) (args : List String) (st : Store)
    (o s : String) :
    (∀ fcn, fcn = "totalSupply" ∨ fcn = "balanceOf" ∨ fcn = "allowance" →
      (Invoke caller fcn args st).store = st ∧
      (Invoke caller fcn args st).events = [] ∧
      Invoke caller fcn args (Invoke caller fcn args st).store
        = Invoke caller fcn args st) ∧
    (Invoke caller "totalSupply" [] st).result = .ok "100000000" ∧
    (∀ b, getBalance st o = .ok b →
      (Invoke caller "balanceOf" [o] st).result = .ok (u2b b)) ∧
    (GetState st (balanceKey o) = none →
      (Invoke caller "balanceOf" [o] st).result = .ok "0") ∧
    (∀ a, getAllowance st o s = .ok a →
      (Invoke caller "allowance" [o, s] st).result = .ok (u2b a)) ∧
    (GetState st (allowanceKey o s) = none →
      (Invoke caller "allowance" [o, s] st).result = .ok "0") := by
  have hts : u2b totalSupply = "100000000" := by decide
  have htot : (Invoke caller "totalSupply" [] st).result = .ok (u2b totalSupply) := rfl
  refine ⟨?_, by rw [htot, hts], ?_, ?_, ?_, ?_⟩
  · intro fcn hf
    have key : (Invoke caller fcn args st).store = st ∧
        (Invoke caller fcn args st).events = [] := by
      rcases hf with hf | hf | hf
      · subst hf
        exact ⟨(totalSupplyOp_frame args st).2, (totalSupplyOp_frame args st).1⟩
      · subst hf
        exact ⟨(balanceOf_frame args st).2, (balanceOf_frame args st).1⟩
      · subst hf
        exact ⟨(allowance_frame args st).2, (allowance_frame args st).1⟩
    refine ⟨key.1, key.2, ?_⟩
    rw [key.1]
  · intro b hb
    have he : Invoke caller "balanceOf" [o] st = balanceOf [o] st := rfl
    rw [he]
    simp only [balanceOf, hb]
  · intro hn
    have he : Invoke caller "balanceOf" [o] st = balanceOf [o] st := rfl
    have hb : getBalance st o = .ok 0 := by simp [getBalance, hn]
    rw [he]
    simp only [balanceOf, hb]
    decide
  · intro a ha
    have he : Invoke caller "allowance" [o, s] st = allowance [o, s] st := rfl
    rw [he]
    simp only [allowance, ha]
  · intro hn
    have he : Invoke caller "allowance" [o, s] st = allowance [o, s] st := rfl
    have ha : getAllowance st o s = .ok 0 := by simp [getAllowance, hn]
    rw [he]
    simp only [allowance, ha]
    decide

theorem reads_pure_witness :
    (Invoke none "balanceOf" ["alice"] (init ["alice"] []).store).result
      = .ok "100000000" ∧
    (Invoke none "balanceOf" ["alice"] (init ["alice"] []).store).store
      = (init ["alice"] []).store ∧
    (Invoke none "allowance" ["alice", "bob"] (init ["alice"] []).store).result
      = .ok "0" :=
  have h := reads_pure none ["alice"] (init ["alice"] []).store "alice" "bob"
  ⟨h.2.2.1 100000000 (by decide), (h.1 "balanceOf" (Or.inr (Or.inl rfl))).1,
    h.2.2.2.2.2 (by decide)⟩

/-- C20. Exact success condition of `transfer` on a store with
read-your-writes, for a resolvable caller, a parsable value and readable
balance records of caller and recipient: it succeeds if and only if the value
is at most the balance of the caller and the recipient is the caller or the
balance of the recipient plus the value is at most `2 ^ 64 - 1`. In a
self-transfer the credit never overflows and every balance reads afterwards as
it did before. -/
theorem transfer_succeeds_iff (st : Store) (caller recipient v : String)
    (value bs bt : Nat) (hv : s2u v = some value)
    (hbs : getBalance st caller = .ok bs) (hbt : getBalance st recipient = .ok bt) :
    ((∃ p, (transfer (some caller) [recipient, v] st).result = .ok p) ↔
      value ≤ bs ∧ (recipient = caller ∨ bt + value ≤ 2 ^ 64 - 1)) ∧
    (recipient = caller → value ≤ bs →
      (transfer (some caller) [recipient, v] st).result = .ok "true" ∧
      ∀ x, getBalance (transfer (some caller) [recipient, v] st).store x
        = getBalance st x) := by
  have hs : uint64Size = 2 ^ 64 := rfl
  have hlt := getBalance_lt hbs
  have self : recipient = caller → value ≤ bs →
      (transfer (some caller) [recipient, v] st).result = .ok "true" ∧
      ∀ x, getBalance (transfer (some caller) [recipient, v] st).store x
        = getBalance st x := by
    intro hrc hle
    subst hrc
    have hsub : sub bs value = .ok (bs - value) := sub_ok hle
    have h1 : getBalance (setBalance st recipient (bs - value)) recipient
        = .ok (bs - value) := getBalance_setBalance_same _ _ (by omega)
    have hadd : add (bs - value) value = .ok (bs - value + value) :=
      add_ok (by omega)
    have heq : transfer (some recipient) [recipient, v] st =
        ⟨.ok "true",
          setBalance (setBalance st recipient (bs - value)) recipient (bs - value + value),
          [Event.Transfer recipient recipient value]⟩ := by
      simp [transfer, getSender, hv, hbs, hsub, h1, hadd]
    rw [heq]
    refine ⟨rfl, ?_⟩
    intro x
    simp only
    by_cases hx : x = recipient
    · subst hx
      rw [getBalance_setBalance_same _ _ (by omega), hbs]
      congr 1
      omega
    · rw [getBalance_setBalance_other _ _ hx, getBalance_setBalance_other _ _ hx]
  refine ⟨⟨?_, ?_⟩, self⟩
  · rintro ⟨p, hp⟩
    obtain ⟨sender, r, v1, value1, bs1, bt1, hc, hargs, hv1, hbs1, hle, hbt1, hno, -⟩ :=
      transfer_ok_inv hp
    cases hc
    simp only [List.cons.injEq, and_true] at hargs
    obtain ⟨rfl, rfl⟩ := hargs
    rw [hv] at hv1
    cases hv1
    rw [hbs] at hbs1
    cases hbs1
    refine ⟨hle, ?_⟩
    by_cases hrc : recipient = caller
    · exact Or.inl hrc
    · right
      rw [getBalance_setBalance_other _ _ hrc, hbt] at hbt1
      cases hbt1
      omega
  · rintro ⟨hle, hor⟩
    by_cases hrc : recipient = caller
    · exact ⟨_, (self hrc hle).1⟩
    · rcases hor with hor | hor
      · exact absurd hor hrc
      · have hsub : sub bs value = .ok (bs - value) := sub_ok hle
        have hadd : add bt value = .ok (bt + value) := add_ok (by omega)
        have h1 : getBalance (setBalance st caller (bs - value)) recipient = .ok bt := by
          rw [getBalance_setBalance_other st _ hrc, hbt]
        exact ⟨"true", by simp [transfer, getSender, hv, hbs, hsub, h1, hadd]⟩

theorem transfer_succeeds_iff_witness :
    (transfer (some "alice") ["alice", "100000000"] (init ["alice"] []).store).result
      = .ok "true" ∧
    getBalance
      (transfer (some "alice") ["alice", "100000000"] (init ["alice"] []).store).store
      "alice" = .ok 100000000 :=
  have h := (transfer_succeeds_iff (init ["alice"] []).store "alice" "alice" "100000000"
    100000000 100000000 100000000 (by decide) (by decide) (by decide)).2 rfl (by decide)
  ⟨h.1, (h.2 "alice").trans (by decide)⟩

/-! ## Stored values decode -/

theorem wellEncoded_PutState {st : Store} (k : String) {v : String}
    (h : wellEncoded st = true) (hv : (b2u v).isSome = true) :
    wellEncoded (PutState st k v) = true := by
  induction st with
  | nil => simp [PutState, wellEncoded, hv]
  | cons e t ih =>
    obtain ⟨k1, v1⟩ := e
    simp only [wellEncoded, List.all_cons, Bool.and_eq_true] at h
    by_cases hk : k1 = k
    · simp only [PutState, hk, if_true, wellEncoded, List.all_cons, Bool.and_eq_true]
      exact ⟨hv, h.2⟩
    · simp only [PutState, hk, if_false, wellEncoded, List.all_cons, Bool.and_eq_true]
      exact ⟨h.1, ih h.2⟩

theorem wellEncoded_setBalance {st : Store} (o : String) {u : Nat}
    (h : wellEncoded st = true) (hu : u < uint64Size) :
    wellEncoded (setBalance st o u) = true :=
  wellEncoded_PutState _ h (by rw [b2u_u2b hu]; rfl)

theorem wellEncoded_setAllowance {st : Store} (o s : String) {u : Nat}
    (h : wellEncoded st = true) (hu : u < uint64Size) :
    wellEncoded (setAllowance st o s u) = true :=
  wellEncoded_PutState _ h (by rw [b2u_u2b hu]; rfl)

theorem wellEncoded_GetState {st : Store} {k v : String} (h : wellEncoded st = true)
    (hg : GetState st k = some v) : ∃ u, b2u v = some u := by
  induction st with
  | nil => simp [GetState] at hg
  | cons e t ih =>
    obtain ⟨k1, v1⟩ := e
    simp only [wellEncoded, List.all_cons, Bool.and_eq_true] at h
    by_cases hk : k1 = k
    · simp only [GetState, hk, if_true, Option.some.injEq] at hg
      subst hg
      exact Option.isSome_iff_exists.mp h.1
    · simp only [GetState, hk, if_false] at hg
      exact ih h.2 hg

theorem wellEncoded_getBalance {st : Store} (h : wellEncoded st = true) (o : String) :
    ∃ b, getBalance st o = .ok b := by
  unfold getBalance
  split
  · exact ⟨0, rfl⟩
  · rename_i v hg
    obtain ⟨u, hu⟩ := wellEncoded_GetState h hg
    exact ⟨u, by simp [hu]⟩

theorem wellEncoded_getAllowance {st : Store} (h : wellEncoded st = true) (o s : String) :
    ∃ a, getAllowance st o s = .ok a := by
  unfold getAllowance
  split
  · exact ⟨0, rfl⟩
  · rename_i v hg
    obtain ⟨u, hu⟩ := wellEncoded_GetState h hg
    exact ⟨u, by simp [hu]⟩

theorem result_cases (r : Except Failure String) : (∃ p, r = .ok p) ∨ ∃ e, r = .error e := by
  cases r with
  | ok p => exact Or.inl ⟨p, rfl⟩
  | error e => exact Or.inr ⟨e, rfl⟩

theorem wellEncoded_transfer {st : Store} (caller : Option String) (args : List String)
    (h : wellEncoded st = true) : wellEncoded (transfer caller args st).store = true := by
  rcases result_cases (transfer caller args st).result with ⟨p, hp⟩ | ⟨e, he⟩
  · obtain ⟨sender, recipient, v, value, bs, bt, -, -, -, hbs, hle, -, hno, heq⟩ :=
      transfer_ok_inv hp
    have hlt := getBalance_lt hbs
    rw [heq]
    exact wellEncoded_setBalance _ (wellEncoded_setBalance _ h (by omega)) hno
  · rcases (transfer_error_inv he).2 with ⟨hst, -⟩ |
      ⟨sender, recipient, v, value, bs, -, -, -, hbs, hle, -, hst⟩
    · rw [hst]; exact h
    · have hlt := getBalance_lt hbs
      rw [hst]
      exact wellEncoded_setBalance _ h (by omega)

theorem wellEncoded_transferFrom {st : Store} (caller : Option String) (args : List String)
    (h : wellEncoded st = true) :
    wellEncoded (transferFrom caller args st).store = true := by
  rcases result_cases (transferFrom caller args st).result with ⟨p, hp⟩ | ⟨e, he⟩
  · obtain ⟨sender, src, recipient, v, value, bf, a, bt, -, -, -, hbf, hle, ha, hla, -, hno,
      heq⟩ := transferFrom_ok_inv hp
    have hlt := getBalance_lt hbf
    have hlta := getAllowance_lt ha
    rw [heq]
    exact wellEncoded_setBalance _
      (wellEncoded_setAllowance _ _ (wellEncoded_setBalance _ h (by omega)) (by omega)) hno
  · rcases (transferFrom_error_inv he).2 with ⟨hst, -⟩ |
      ⟨sender, src, recipient, v, value, bf, -, -, -, hbf, hle, hk⟩
    · rw [hst]; exact h
    · have hlt := getBalance_lt hbf
      rcases hk with ⟨-, hst⟩ | ⟨a, ha, hla, -, hst⟩
      · rw [hst]
        exact wellEncoded_setBalance _ h (by omega)
      · have hlta := getAllowance_lt ha
        rw [hst]
        exact wellEncoded_setAllowance _ _ (wellEncoded_setBalance _ h (by omega))
          (by omega)

theorem wellEncoded_approve {st : Store} (caller : Option String) (args : List String)
    (h : wellEncoded st = true) : wellEncoded (approve caller args st).store = true := by
  rcases result_cases (approve caller args st).result with ⟨p, hp⟩ | ⟨e, he⟩
  · obtain ⟨sender, spender, v, value, -, -, hv, heq⟩ := approve_ok_inv hp
    rw [heq]
    exact wellEncoded_setAllowance _ _ h (s2u_lt hv)
  · rw [(approve_error he).2]; exact h

theorem wellEncoded_init {st : Store} (args : List String) (h : wellEncoded st = true) :
    wellEncoded (init args st).store = true := by
  unfold init
  split
  · exact wellEncoded_setBalance _ h (by decide)
  · exact h

theorem wellEncoded_run {st : Store} (c : Call) (h : wellEncoded st = true) :
    wellEncoded (c.run st).store = true := by
  cases c with
  | viaInit fcn args =>
    simp only [Call.run, Init]
    split
    · exact wellEncoded_init args h
    · exact h
  | viaInvoke caller fcn args =>
    simp only [Call.run]
    rcases Invoke_cases caller fcn args st with ⟨-, he⟩ | ⟨-, he⟩ | ⟨-, he⟩ | ⟨-, he⟩ |
      ⟨-, he⟩ | ⟨-, he⟩ | ⟨-, -, he⟩
    · rw [he, (totalSupplyOp_frame args st).2]; exact h
    · rw [he, (balanceOf_frame args st).2]; exact h
    · rw [he, (allowance_frame args st).2]; exact h
    · rw [he]; exact wellEncoded_transfer caller args h
    · rw [he]; exact wellEncoded_approve caller args h
    · rw [he]; exact wellEncoded_transferFrom caller args h
    · rw [he]; exact h

theorem wellEncoded_runCalls (cs : List Call) {st : Store} (h : wellEncoded st = true) :
    wellEncoded (runCalls cs st) = true := by
  induction cs generalizing st with
  | nil => exact h
  | cons c cs ih => exact ih (wellEncoded_run c h)

/-- C19. Storage corruption is unreachable: in every state reached from the
empty store by any sequence of calls of `Init` and `Invoke`, successful or
failed, every stored value decodes (`b2u` succeeds on it), so `getBalance` and
`getAllowance` fail for no identity. -/
theorem no_storage_corruption (cs : List Call) :
    (∀ k v, GetState (runCalls cs []) k = some v → ∃ u, b2u v = some u) ∧
    (∀ kv ∈ runCalls cs [], ∃ u, b2u kv.2 = some u) ∧
    (∀ o, ∃ b, getBalance (runCalls cs []) o = .ok b) ∧
    (∀ o s, ∃ a, getAllowance (runCalls cs []) o s = .ok a) := by
  have h : wellEncoded (runCalls cs []) = true := wellEncoded_runCalls cs rfl
  refine ⟨fun k v hg => wellEncoded_GetState h hg, ?_, wellEncoded_getBalance h,
    wellEncoded_getAllowance h⟩
  intro kv hkv
  have := List.all_eq_true.mp h kv hkv
  exact Option.isSome_iff_exists.mp this

theorem no_storage_corruption_witness :
    runCalls mixedRun []
      = [("balance::alice", "99999400"), ("allowance::alice::carol", "500")] ∧
    ∃ b, getBalance (runCalls mixedRun []) "alice" = .ok b :=
  ⟨by decide, (no_storage_corruption mixedRun).2.2.1 "alice"⟩

/-! ## Absent and zero records -/

theorem StoreEquiv_setBalance {s1 s2 : Store} (h : StoreEquiv s1 s2) (o : String) (u : Nat) :
    StoreEquiv (setBalance s1 o u) (setBalance s2 o u) := by
  constructor
  · intro x
    by_cases hx : x = o
    · subst hx
      simp [getBalance, setBalance, GetState_PutState_same]
    · rw [getBalance_setBalance_other _ _ hx, getBalance_setBalance_other _ _ hx]
      exact h.1 x
  · intro x s
    rw [getAllowance_setBalance, getAllowance_setBalance]
    exact h.2 x s

theorem StoreEquiv_setAllowance {s1 s2 : Store} (h : StoreEquiv s1 s2) (o s : String)
    (u : Nat) : StoreEquiv (setAllowance s1 o s u) (setAllowance s2 o s u) := by
  constructor
  · intro x
    rw [getBalance_setAllowance, getBalance_setAllowance]
    exact h.1 x
  · intro o2 s2
    by_cases hk : allowanceKey o s = allowanceKey o2 s2
    · simp [getAllowance, setAllowance, ← hk, GetState_PutState_same]
    · rw [getAllowance_setAllowance_other _ _ hk, getAllowance_setAllowance_other _ _ hk]
      exact h.2 o2 s2

theorem OutcomeEquiv_failed {s1 s2 : Store} (h : StoreEquiv s1 s2) (e : Failure) :
    OutcomeEquiv (failed e s1) (failed e s2) :=
  ⟨rfl, rfl, h⟩

theorem init_equiv {s1 s2 : Store} (h : StoreEquiv s1 s2) (args : List String) :
    OutcomeEquiv (init args s1) (init args s2) := by
  by_cases hl : args.length = 1
  · obtain ⟨owner, rfl⟩ := List.length_eq_one.mp hl
    exact ⟨rfl, rfl, StoreEquiv_setBalance h _ _⟩
  · rw [init_arity s1 hl, init_arity s2 hl]
    exact OutcomeEquiv_failed h _

theorem totalSupplyOp_equiv {s1 s2 : Store} (h : StoreEquiv s1 s2) (args : List String) :
    OutcomeEquiv (totalSupplyOp args s1) (totalSupplyOp args s2) := by
  by_cases hl : args.length = 0
  · have : args = [] := List.length_eq_zero.mp hl
    subst this
    exact ⟨rfl, rfl, h⟩
  · rw [totalSupplyOp_arity s1 hl, totalSupplyOp_arity s2 hl]
    exact OutcomeEquiv_failed h _

theorem balanceOf_equiv {s1 s2 : Store} (h : StoreEquiv s1 s2) (args : List String) :
    OutcomeEquiv (balanceOf args s1) (balanceOf args s2) := by
  by_cases hl : args.length = 1
  · obtain ⟨owner, rfl⟩ := List.length_eq_one.mp hl
    have hb := h.1 owner
    cases hb2 : getBalance s2 owner with
    | error e =>
      rw [hb2] at hb
      simp only [balanceOf, hb, hb2]
      exact OutcomeEquiv_failed h _
    | ok b =>
      rw [hb2] at hb
      simp only [balanceOf, hb, hb2]
      exact ⟨rfl, rfl, h⟩
  · rw [balanceOf_arity s1 hl, balanceOf_arity s2 hl]
    exact OutcomeEquiv_failed h _

theorem allowance_equiv {s1 s2 : Store} (h : StoreEquiv s1 s2) (args : List String) :
    OutcomeEquiv (allowance args s1) (allowance args s2) := by
  by_cases hl : args.length = 2
  · obtain ⟨owner, spender, rfl⟩ := List.length_eq_two.mp hl
    have ha := h.2 owner spender
    cases ha2 : getAllowance s2 owner spender with
    | error e =>
      rw [ha2] at ha
      simp only [allowance, ha, ha2]
      exact OutcomeEquiv_failed h _
    | ok b =>
      rw [ha2] at ha
      simp only [allowance, ha, ha2]
      exact ⟨rfl, rfl, h⟩
  · rw [allowance_arity s1 hl, allowance_arity s2 hl]
    exact OutcomeEquiv_failed h _

theorem approve_equiv {s1 s2 : Store} (h : StoreEquiv s1 s2) (caller : Option String)
    (args : List String) : OutcomeEquiv (approve caller args s1) (approve caller args s2) := by
  by_cases hl : args.length = 2
  · obtain ⟨spender, v, rfl⟩ := List.length_eq_two.mp hl
    cases caller with
    | none => exact OutcomeEquiv_failed h _
    | some sender =>
      cases hv : s2u v with
      | none =>
        simp only [approve, getSender, hv]
        exact OutcomeEquiv_failed h _
      | some value =>
        simp only [approve, getSender, hv]
        exact ⟨rfl, rfl, StoreEquiv_setAllowance h _ _ _⟩
  · rw [approve_arity caller s1 hl, approve_arity caller s2 hl]
    exact OutcomeEquiv_failed h _

theorem transfer_equiv {s1 s2 : Store} (h : StoreEquiv s1 s2) (caller : Option String)
    (args : List String) :
    OutcomeEquiv (transfer caller args s1) (transfer caller args s2) := by
  by_cases hl : args.length = 2
  · obtain ⟨recipient, v, rfl⟩ := List.length_eq_two.mp hl
    cases caller with
    | none => exact OutcomeEquiv_failed h _
    | some sender =>
      cases hv : s2u v with
      | none =>
        simp only [transfer, getSender, hv]
        exact OutcomeEquiv_failed h _
      | some value =>
        have hb := h.1 sender
        cases hb2 : getBalance s2 sender with
        | error e =>
          rw [hb2] at hb
          simp only [transfer, getSender, hv, hb, hb2]
          exact OutcomeEquiv_failed h _
        | ok bs =>
          rw [hb2] at hb
          cases hsub : sub bs value with
          | error e =>
            simp only [transfer, getSender, hv, hb, hb2, hsub]
            exact OutcomeEquiv_failed h _
          | ok bs1 =>
            have h1 := StoreEquiv_setBalance h sender bs1
            have hbt := h1.1 recipient
            cases hbt2 : getBalance (setBalance s2 sender bs1) recipient with
            | error e =>
              rw [hbt2] at hbt
              simp only [transfer, getSender, hv, hb, hb2, hsub, hbt, hbt2]
              exact OutcomeEquiv_failed h1 _
            | ok bt =>
              rw [hbt2] at hbt
              cases hadd : add bt value with
              | error e =>
                simp only [transfer, getSender, hv, hb, hb2, hsub, hbt, hbt2, hadd]
                exact OutcomeEquiv_failed h1 _
              | ok bt1 =>
                simp only [transfer, getSender, hv, hb, hb2, hsub, hbt, hbt2, hadd]
                exact ⟨rfl, rfl, StoreEquiv_setBalance h1 _ _⟩
  · rw [transfer_arity caller s1 hl, transfer_arity caller s2 hl]
    exact OutcomeEquiv_failed h _

theorem transferFrom_equiv {s1 s2 : Store} (h : StoreEquiv s1 s2) (caller : Option String)
    (args : List String) :
    OutcomeEquiv (transferFrom caller args s1) (transferFrom caller args s2) := by
  by_cases hl : args.length = 3
  · obtain ⟨src, recipient, v, rfl⟩ := List.length_eq_three.mp hl
    cases caller with
    | none => exact OutcomeEquiv_failed h _
    | some sender =>
      cases hv : s2u v with
      | none =>
        simp only [transferFrom, getSender, hv]
        exact OutcomeEquiv_failed h _
      | some value =>
        have hb := h.1 src
        cases hb2 : getBalance s2 src with
        | error e =>
          rw [hb2] at hb
          simp only [transferFrom, getSender, hv, hb, hb2]
          exact OutcomeEquiv_failed h _
        | ok bf =>
          rw [hb2] at hb
          cases hsub : sub bf value with
          | error e =>
            simp only [transferFrom, getSender, hv, hb, hb2, hsub]
            exact OutcomeEquiv_failed h _
          | ok bf1 =>
            have h1 := StoreEquiv_setBalance h src bf1
            have ha := h1.2 src sender
            cases ha2 : getAllowance (setBalance s2 src bf1) src sender with
            | error e =>
              rw [ha2] at ha
              simp only [transferFrom, getSender, hv, hb, hb2, hsub, ha, ha2]
              exact OutcomeEquiv_failed h1 _
            | ok a =>
              rw [ha2] at ha
              cases hsuba : sub a value with
              | error e =>
                simp only [transferFrom, getSender, hv, hb, hb2, hsub, ha, ha2, hsuba]
                exact OutcomeEquiv_failed h1 _
              | ok a1 =>
                have h2 := StoreEquiv_setAllowance h1 src sender a1
                have hbt := h2.1 recipient
                cases hbt2 : getBalance
                    (setAllowance (setBalance s2 src bf1) src sender a1) recipient with
                | error e =>
                  rw [hbt2] at hbt
                  simp only [transferFrom, getSender, hv, hb, hb2, hsub, ha, ha2, hsuba,
                    hbt, hbt2]
                  exact OutcomeEquiv_failed h2 _
                | ok bt =>
                  rw [hbt2] at hbt
                  cases hadd : add bt value with
                  | error e =>
                    simp only [transferFrom, getSender, hv, hb, hb2, hsub, ha, ha2, hsuba,
                      hbt, hbt2, hadd]
                    exact OutcomeEquiv_failed h2 _
                  | ok bt1 =>
                    simp only [transferFrom, getSender, hv, hb, hb2, hsub, ha, ha2, hsuba,
                      hbt, hbt2, hadd]
                    exact ⟨rfl, rfl, StoreEquiv_setBalance h2 _ _⟩
  · rw [transferFrom_arity caller s1 hl, transferFrom_arity caller s2 hl]
    exact OutcomeEquiv_failed h _

theorem StoreEquiv_zero_record (o : String) : StoreEquiv [] [(balanceKey o, "0")] := by
  constructor
  · intro x
    by_cases hx : balanceKey o = balanceKey x
    · simp only [getBalance, GetState, hx, if_true]
      decide
    · simp only [getBalance, GetState, hx, if_false]
  · intro x s
    have hk : balanceKey o ≠ allowanceKey x s := balanceKey_ne_allowanceKey o x s
    simp only [getAllowance, GetState, hk, if_false]

/-- C18. Absent and present-zero records are observationally equivalent: on two
stores that give the same `getBalance` for every identity and the same
`getAllowance` for every pair, every operation, called through `Init` or
`Invoke` with the same caller and arguments, yields the same result (success
with the same payload, or the same failure), the same events, and stores that
are equivalent again. -/
theorem absent_zero_equivalent (s1 s2 : Store) (h : StoreEquiv s1 s2)
    (caller : Option String) (fcn : String) (args : List String) :
    ((Init fcn args s1).result = (Init fcn args s2).result ∧
      (Init fcn args s1).events = (Init fcn args s2).events ∧
      StoreEquiv (Init fcn args s1).store (Init fcn args s2).store) ∧
    ((Invoke caller fcn args s1).result = (Invoke caller fcn args s2).result ∧
      (Invoke caller fcn args s1).events = (Invoke caller fcn args s2).events ∧
      StoreEquiv (Invoke caller fcn args s1).store (Invoke caller fcn args s2).store) := by
  constructor
  · unfold Init
    split_ifs
    · exact init_equiv h args
    · exact ⟨rfl, rfl, h⟩
  · unfold Invoke
    split_ifs
    · exact totalSupplyOp_equiv h args
    · exact balanceOf_equiv h args
    · exact allowance_equiv h args
    · exact transfer_equiv h caller args
    · exact approve_equiv h caller args
    · exact transferFrom_equiv h caller args
    · exact OutcomeEquiv_failed h _

theorem absent_zero_equivalent_witness :
    (Invoke (some "bob") "transfer" ["alice", "0"] []).result = .ok "true" ∧
    (Invoke (some "bob") "transfer" ["alice", "0"] [("balance::bob", "0")]).result
      = .ok "true" ∧
    (Invoke (some "bob") "transfer" ["alice", "0"] []).store
      = [("balance::bob", "0"), ("balance::alice", "0")] ∧
    StoreEquiv (Invoke (some "bob") "transfer" ["alice", "0"] []).store
      (Invoke (some "bob") "transfer" ["alice", "0"] [("balance::bob", "0")]).store :=
  have h := (absent_zero_equivalent [] [("balance::bob", "0")]
    (StoreEquiv_zero_record "bob") (some "bob") "transfer" ["alice", "0"]).2
  ⟨by decide, by decide, by decide, h.2.2⟩

/-! ## Failed operations, cause by cause -/

theorem transfer_failure_exact {caller : Option String} {args : List String} {st : Store}
    {e : Failure} (h : (transfer caller args st).result = .error e) :
    ((transfer caller args st).store = st ∧
      (args.length ≠ 2 ∧ e = .invalidArguments ∨
        ∃ recipient v, args = [recipient, v] ∧
          (caller = none ∧ e = .identity ∨
            ∃ sender, caller = some sender ∧
              (s2u v = none ∧ e = .parse ∨
                ∃ value, s2u v = some value ∧
                  (getBalance st sender = .error .corruption ∧ e = .corruption ∨
                    ∃ bs, getBalance st sender = .ok bs ∧ bs < value ∧
                      e = .invalidSubtraction))))) ∨
    ∃ sender recipient v value bs, caller = some sender ∧ args = [recipient, v] ∧
      s2u v = some value ∧ getBalance st sender = .ok bs ∧ value ≤ bs ∧
      (transfer caller args st).store = setBalance st sender (bs - value) ∧
      (getBalance (setBalance st sender (bs - value)) recipient = .error .corruption ∧
          e = .corruption ∨
        ∃ bt, getBalance (setBalance st sender (bs - value)) recipient = .ok bt ∧
          2 ^ 64 - 1 < bt + value ∧ e = .invalidAddition) := by
  have hs : uint64Size = 2 ^ 64 := rfl
  by_cases hl : args.length = 2
  swap
  · rw [transfer_arity caller st hl] at h ⊢
    simp only [failed, Except.error.injEq] at h
    exact Or.inl ⟨rfl, Or.inl ⟨hl, h.symm⟩⟩
  obtain ⟨recipient, v, rfl⟩ := List.length_eq_two.mp hl
  cases caller with
  | none =>
    have heq : transfer none [recipient, v] st = failed .identity st := rfl
    rw [heq] at h ⊢
    simp only [failed, Except.error.injEq] at h
    exact Or.inl ⟨rfl, Or.inr ⟨recipient, v, rfl, Or.inl ⟨rfl, h.symm⟩⟩⟩
  | some sender =>
    cases hv : s2u v with
    | none =>
      have heq : transfer (some sender) [recipient, v] st = failed .parse st := by
        simp [transfer, getSender, hv]
      rw [heq] at h ⊢
      simp only [failed, Except.error.injEq] at h
      exact Or.inl ⟨rfl, Or.inr ⟨recipient, v, rfl, Or.inr ⟨sender, rfl,
        Or.inl ⟨hv, h.symm⟩⟩⟩⟩
    | some value =>
      cases hbs : getBalance st sender with
      | error e1 =>
        have he1 := getBalance_error hbs
        subst he1
        have heq : transfer (some sender) [recipient, v] st = failed .corruption st := by
          simp [transfer, getSender, hv, hbs]
        rw [heq] at h ⊢
        simp only [failed, Except.error.injEq] at h
        exact Or.inl ⟨rfl, Or.inr ⟨recipient, v, rfl, Or.inr ⟨sender, rfl,
          Or.inr ⟨value, hv, Or.inl ⟨hbs, h.symm⟩⟩⟩⟩⟩
      | ok bs =>
        by_cases hle : value ≤ bs
        swap
        · have hsub : sub bs value = .error .invalidSubtraction := sub_underflow (by omega)
          have heq : transfer (some sender) [recipient, v] st
              = failed .invalidSubtraction st := by
            simp [transfer, getSender, hv, hbs, hsub]
          rw [heq] at h ⊢
          simp only [failed, Except.error.injEq] at h
          exact Or.inl ⟨rfl, Or.inr ⟨recipient, v, rfl, Or.inr ⟨sender, rfl,
            Or.inr ⟨value, hv, Or.inr ⟨bs, hbs, by omega, h.symm⟩⟩⟩⟩⟩
        have hsub : sub bs value = .ok (bs - value) := sub_ok hle
        right
        refine ⟨sender, recipient, v, value, bs, rfl, rfl, hv, hbs, hle, ?_⟩
        cases hbt : getBalance (setBalance st sender (bs - value)) recipient with
        | error e1 =>
          have he1 := getBalance_error hbt
          subst he1
          have heq : transfer (some sender) [recipient, v] st
              = failed .corruption (setBalance st sender (bs - value)) := by
            simp [transfer, getSender, hv, hbs, hsub, hbt]
          rw [heq] at h ⊢
          simp only [failed, Except.error.injEq] at h
          exact ⟨rfl, Or.inl ⟨rfl, h.symm⟩⟩
        | ok bt =>
          by_cases hno : bt + value < uint64Size
          · have hadd : add bt value = .ok (bt + value) := add_ok hno
            have heq : (transfer (some sender) [recipient, v] st).result = .ok "true" := by
              simp [transfer, getSender, hv, hbs, hsub, hbt, hadd]
            rw [heq] at h
            cases h
          · have hadd : add bt value = .error .invalidAddition :=
              add_overflow (s2u_lt hv) (by omega)
            have heq : transfer (some sender) [recipient, v] st
                = failed .invalidAddition (setBalance st sender (bs - value)) := by
              simp [transfer, getSender, hv, hbs, hsub, hbt, hadd]
            rw [heq] at h ⊢
            simp only [failed, Except.error.injEq] at h
            exact ⟨rfl, Or.inr ⟨bt, rfl, by omega, h.symm⟩⟩

theorem transferFrom_failure_exact {caller : Option String} {args : List String}
    {st : Store} {e : Failure} (h : (transferFrom caller args st).result = .error e) :
    ((transferFrom caller args st).store = st ∧
      (args.length ≠ 3 ∧ e = .invalidArguments ∨
        ∃ src recipient v, args = [src, recipient, v] ∧
          (caller = none ∧ e = .identity ∨
            ∃ sender, caller = some sender ∧
              (s2u v = none ∧ e = .parse ∨
                ∃ value, s2u v = some value ∧
                  (getBalance st src = .error .corruption ∧ e = .corruption ∨
                    ∃ bf, getBalance st src = .ok bf ∧ bf < value ∧
                      e = .invalidSubtraction))))) ∨
    ∃ sender src recipient v value bf, caller = some sender ∧
      args = [src, recipient, v] ∧ s2u v = some value ∧
      getBalance st src = .ok bf ∧ value ≤ bf ∧
      (((transferFrom caller args st).store = setBalance st src (bf - value) ∧
          (getAllowance st src sender = .error .corruption ∧ e = .corruption ∨
            ∃ a, getAllowance st src sender = .ok a ∧ a < value ∧
              e = .invalidSubtraction)) ∨
        ∃ a, getAllowance st src sender = .ok a ∧ value ≤ a ∧
          (transferFrom caller args st).store
            = setAllowance (setBalance st src (bf - value)) src sender (a - value) ∧
          (getBalance (setAllowance (setBalance st src (bf - value)) src sender (a - value))
                recipient = .error .corruption ∧ e = .corruption ∨
            ∃ bt,
              getBalance (setAllowance (setBalance st src (bf - value)) src sender (a - value))
                recipient = .ok bt ∧
              2 ^ 64 - 1 < bt + value ∧ e = .invalidAddition)) := by
  have hs : uint64Size = 2 ^ 64 := rfl
  by_cases hl : args.length = 3
  swap
  · rw [transferFrom_arity caller st hl] at h ⊢
    simp only [failed, Except.error.injEq] at h
    exact Or.inl ⟨rfl, Or.inl ⟨hl, h.symm⟩⟩
  obtain ⟨src, recipient, v, rfl⟩ := List.length_eq_three.mp hl
  cases caller with
  | none =>
    have heq : transferFrom none [src, recipient, v] st = failed .identity st := rfl
    rw [heq] at h ⊢
    simp only [failed, Except.error.injEq] at h
    exact Or.inl ⟨rfl, Or.inr ⟨src, recipient, v, rfl, Or.inl ⟨rfl, h.symm⟩⟩⟩
  | some sender =>
    cases hv : s2u v with
    | none =>
      have heq : transferFrom (some sender) [src, recipient, v] st = failed .parse st := by
        simp [transferFrom, getSender, hv]
      rw [heq] at h ⊢
      simp only [failed, Except.error.injEq] at h
      exact Or.inl ⟨rfl, Or.inr ⟨src, recipient, v, rfl, Or.inr ⟨sender, rfl,
        Or.inl ⟨hv, h.symm⟩⟩⟩⟩
    | some value =>
      cases hbf : getBalance st src with
      | error e1 =>
        have he1 := getBalance_error hbf
        subst he1
        have heq : transferFrom (some sender) [src, recipient, v] st
            = failed .corruption st := by
          simp [transferFrom, getSender, hv, hbf]
        rw [heq] at h ⊢
        simp only [failed, Except.error.injEq] at h
        exact Or.inl ⟨rfl, Or.inr ⟨src, recipient, v, rfl, Or.inr ⟨sender, rfl,
          Or.inr ⟨value, hv, Or.inl ⟨hbf, h.symm⟩⟩⟩⟩⟩
      | ok bf =>
        by_cases hle : value ≤ bf
        swap
        · have hsub : sub bf value = .error .invalidSubtraction := sub_underflow (by omega)
          have heq : transferFrom (some sender) [src, recipient, v] st
              = failed .invalidSubtraction st := by
            simp [transferFrom, getSender, hv, hbf, hsub]
          rw [heq] at h ⊢
          simp only [failed, Except.error.injEq] at h
          exact Or.inl ⟨rfl, Or.inr ⟨src, recipient, v, rfl, Or.inr ⟨sender, rfl,
            Or.inr ⟨value, hv, Or.inr ⟨bf, hbf, by omega, h.symm⟩⟩⟩⟩⟩
        have hsub : sub bf value = .ok (bf - value) := sub_ok hle
        right
        refine ⟨sender, src, recipient, v, value, bf, rfl, rfl, hv, hbf, hle, ?_⟩
        cases ha : getAllowance st src sender with
        | error e1 =>
          have he1 := getAllowance_error ha
          subst he1
          have ha1 : getAllowance (setBalance st src (bf - value)) src sender
              = .error .corruption := by rw [getAllowance_setBalance, ha]
          have heq : transferFrom (some sender) [src, recipient, v] st
              = failed .corruption (setBalance st src (bf - value)) := by
            simp [transferFrom, getSender, hv, hbf, hsub, ha1]
          rw [heq] at h ⊢
          simp only [failed, Except.error.injEq] at h
          exact Or.inl ⟨rfl, Or.inl ⟨rfl, h.symm⟩⟩
        | ok a =>
          have ha1 : getAllowance (setBalance st src (bf - value)) src sender = .ok a := by
            rw [getAllowance_setBalance, ha]
          by_cases hla : value ≤ a
          swap
          · have hsuba : sub a value = .error .invalidSubtraction :=
              sub_underflow (by omega)
            have heq : transferFrom (some sender) [src, recipient, v] st
                = failed .invalidSubtraction (setBalance st src (bf - value)) := by
              simp [transferFrom, getSender, hv, hbf, hsub, ha1, hsuba]
            rw [heq] at h ⊢
            simp only [failed, Except.error.injEq] at h
            exact Or.inl ⟨rfl, Or.inr ⟨a, rfl, by omega, h.symm⟩⟩
          have hsuba : sub a value = .ok (a - value) := sub_ok hla
          right
          refine ⟨a, rfl, hla, ?_⟩
          cases hbt : getBalance
              (setAllowance (setBalance st src (bf - value)) src sender (a - value))
              recipient with
          | error e1 =>
            have he1 := getBalance_error hbt
            subst he1
            have heq : transferFrom (some sender) [src, recipient, v] st
                = failed .corruption
                  (setAllowance (setBalance st src (bf - value)) src sender (a - value)) := by
              simp [transferFrom, getSender, hv, hbf, hsub, ha1, hsuba, hbt]
            rw [heq] at h ⊢
            simp only [failed, Except.error.injEq] at h
            exact ⟨rfl, Or.inl ⟨rfl, h.symm⟩⟩
          | ok bt =>
            by_cases hno : bt + value < uint64Size
            · have hadd : add bt value = .ok (bt + value) := add_ok hno
              have heq : (transferFrom (some sender) [src, recipient, v] st).result
                  = .ok "true" := by
                simp [transferFrom, getSender, hv, hbf, hsub, ha1, hsuba, hbt, hadd]
              rw [heq] at h
              cases h
            · have hadd : add bt value = .error .invalidAddition :=
                add_overflow (s2u_lt hv) (by omega)
              have heq : transferFrom (some sender) [src, recipient, v] st
                  = failed .invalidAddition
                    (setAllowance (setBalance st src (bf - value)) src sender
                      (a - value)) := by
                simp [transferFrom, getSender, hv, hbf, hsub, ha1, hsuba, hbt, hadd]
              rw [heq] at h ⊢
              simp only [failed, Except.error.injEq] at h
              exact ⟨rfl, Or.inr ⟨bt, rfl, by omega, h.symm⟩⟩

/-- C4 (amended). An invocation of any operation that fails emits no event. The
store after the call is the store before it for `init`, `totalSupply`,
`balanceOf`, `allowance` and `approve`, for every failure on the arity, the
function name, the caller identity or an unparsable value, and for the
underflow of `transfer`. For `transfer` and `transferFrom` the store is given
failure by failure. `transfer(to, value)` by a caller leaves the store
untouched when it fails on the arity, the identity, the value, an unreadable
balance of the caller or a value above that balance; when it fails later, on
an unreadable balance of `to` or on the overflow of its credit, the store is
the one before the call with the balance of the caller reduced by the value.
`transferFrom(from, to, value)` leaves the store untouched when it fails on
the arity, the identity, the value, an unreadable balance of `from` or a value
above that balance; when it fails on the allowance of (`from`, caller), being
unreadable or below the value, the store is the one before the call with the
balance of `from` reduced by the value; when it fails after that, on an
unreadable balance of `to` or on the overflow of its credit, the store holds
in addition the allowance of (`from`, caller) reduced by the value. -/
theorem failed_operation_effect (caller : Option String) (fcn : String)
    (args : List String) (st : Store) (e : Failure) :
    ((Init fcn args st).result = .error e →
      (Init fcn args st).events = [] ∧ (Init fcn args st).store = st) ∧
    ((Invoke caller fcn args st).result = .error e →
      (Invoke caller fcn args st).events = [] ∧
      ((fcn ≠ "transfer" ∧ fcn ≠ "transferFrom") ∨ e = .invalidArguments ∨
          e = .invalidFunctionName ∨ e = .identity ∨ e = .parse ∨
          (fcn = "transfer" ∧ e = .invalidSubtraction) →
        (Invoke caller fcn args st).store = st) ∧
      (fcn = "transfer" →
        ((Invoke caller fcn args st).store = st ∧
          (args.length ≠ 2 ∧ e = .invalidArguments ∨
            ∃ recipient v, args = [recipient, v] ∧
              (caller = none ∧ e = .identity ∨
                ∃ sender, caller = some sender ∧
                  (s2u v = none ∧ e = .parse ∨
                    ∃ value, s2u v = some value ∧
                      (getBalance st sender = .error .corruption ∧ e = .corruption ∨
                        ∃ bs, getBalance st sender = .ok bs ∧ bs < value ∧
                          e = .invalidSubtraction))))) ∨
        ∃ sender recipient v value bs, caller = some sender ∧ args = [recipient, v] ∧
          s2u v = some value ∧ getBalance st sender = .ok bs ∧ value ≤ bs ∧
          (Invoke caller fcn args st).store = setBalance st sender (bs - value) ∧
          (getBalance (setBalance st sender (bs - value)) recipient = .error .corruption ∧
              e = .corruption ∨
            ∃ bt, getBalance (setBalance st sender (bs - value)) recipient = .ok bt ∧
              2 ^ 64 - 1 < bt + value ∧ e = .invalidAddition)) ∧
      (fcn = "transferFrom" →
        ((Invoke caller fcn args st).store = st ∧
          (args.length ≠ 3 ∧ e = .invalidArguments ∨
            ∃ src recipient v, args = [src, recipient, v] ∧
              (caller = none ∧ e = .identity ∨
                ∃ sender, caller = some sender ∧
                  (s2u v = none ∧ e = .parse ∨
                    ∃ value, s2u v = some value ∧
                      (getBalance st src = .error .corruption ∧ e = .corruption ∨
                        ∃ bf, getBalance st src = .ok bf ∧ bf < value ∧
                          e = .invalidSubtraction))))) ∨
        ∃ sender src recipient v value bf, caller = some sender ∧
          args = [src, recipient, v] ∧ s2u v = some value ∧
          getBalance st src = .ok bf ∧ value ≤ bf ∧
          (((Invoke caller fcn args st).store = setBalance st src (bf - value) ∧
              (getAllowance st src sender = .error .corruption ∧ e = .corruption ∨
                ∃ a, getAllowance st src sender = .ok a ∧ a < value ∧
                  e = .invalidSubtraction)) ∨
            ∃ a, getAllowance st src sender = .ok a ∧ value ≤ a ∧
              (Invoke caller fcn args st).store
                = setAllowance (setBalance st src (bf - value)) src sender (a - value) ∧
              (getBalance
                    (setAllowance (setBalance st src (bf - value)) src sender (a - value))
                    recipient = .error .corruption ∧ e = .corruption ∨
                ∃ bt,
                  getBalance
                    (setAllowance (setBalance st src (bf - value)) src sender (a - value))
                    recipient = .ok bt ∧
                  2 ^ 64 - 1 < bt + value ∧ e = .invalidAddition)))) := by
  constructor
  · intro h
    unfold Init at h ⊢
    split_ifs at h ⊢ with h1
    exact ⟨(init_error h).1, (init_error h).2.1⟩
  · intro h
    have hA : (Invoke caller fcn args st).events = [] ∧
        ((fcn ≠ "transfer" ∧ fcn ≠ "transferFrom") ∨ e = .invalidArguments ∨
            e = .invalidFunctionName ∨ e = .identity ∨ e = .parse ∨
            (fcn = "transfer" ∧ e = .invalidSubtraction) →
          (Invoke caller fcn args st).store = st) := by
      rcases Invoke_cases caller fcn args st with ⟨hf, he⟩ | ⟨hf, he⟩ | ⟨hf, he⟩ |
        ⟨hf, he⟩ | ⟨hf, he⟩ | ⟨hf, he⟩ | ⟨hf1, hf2, he⟩
      · rw [he]
        exact ⟨(totalSupplyOp_frame args st).1, fun _ => (totalSupplyOp_frame args st).2⟩
      · rw [he]
        exact ⟨(balanceOf_frame args st).1, fun _ => (balanceOf_frame args st).2⟩
      · rw [he]
        exact ⟨(allowance_frame args st).1, fun _ => (allowance_frame args st).2⟩
      · rw [he] at h ⊢
        obtain ⟨hev, hst⟩ := transfer_error_inv h
        refine ⟨hev, ?_⟩
        intro hc
        rcases hst with ⟨hst, -⟩ | ⟨_, _, _, _, _, -, -, -, -, -, hk, -⟩
        · exact hst
        · subst hf
          rcases hc with ⟨hc, -⟩ | hc | hc | hc | hc | ⟨-, hc⟩
          · exact absurd rfl hc
          all_goals (subst hc; rcases hk with hk | hk <;> cases hk)
      · rw [he] at h ⊢
        exact ⟨(approve_error h).1, fun _ => (approve_error h).2⟩
      · rw [he] at h ⊢
        obtain ⟨hev, hst⟩ := transferFrom_error_inv h
        refine ⟨hev, ?_⟩
        intro hc
        rcases hst with ⟨hst, -⟩ | ⟨_, _, _, _, _, _, -, -, -, -, -, hk⟩
        · exact hst
        · subst hf
          rcases hc with ⟨-, hc⟩ | hc | hc | hc | hc | ⟨hc, -⟩
          · exact absurd rfl hc
          · subst hc
            rcases hk with ⟨hk | hk, -⟩ | ⟨_, -, -, hk | hk, -⟩ <;> cases hk
          · subst hc
            rcases hk with ⟨hk | hk, -⟩ | ⟨_, -, -, hk | hk, -⟩ <;> cases hk
          · subst hc
            rcases hk with ⟨hk | hk, -⟩ | ⟨_, -, -, hk | hk, -⟩ <;> cases hk
          · subst hc
            rcases hk with ⟨hk | hk, -⟩ | ⟨_, -, -, hk | hk, -⟩ <;> cases hk
          · exact absurd hc (by decide)
      · rw [he]
        exact ⟨rfl, fun _ => rfl⟩
    refine ⟨hA.1, hA.2, ?_, ?_⟩
    · intro hf
      subst hf
      have he : Invoke caller "transfer" args st = transfer caller args st := rfl
      rw [he] at h ⊢
      exact transfer_failure_exact h
    · intro hf
      subst hf
      have he : Invoke caller "transferFrom" args st = transferFrom caller args st := rfl
      rw [he] at h ⊢
      exact transferFrom_failure_exact h

theorem failed_operation_effect_witness :
    (Invoke (some "carol") "transferFrom" ["alice", "dave", "600"]
      (approve (some "alice") ["carol", "500"] (init ["alice"] []).store).store).result
      = .error .invalidSubtraction ∧
    (Invoke (some "carol") "transferFrom" ["alice", "dave", "600"]
      (approve (some "alice") ["carol", "500"] (init ["alice"] []).store).store).events
      = [] ∧
    (Invoke (some "carol") "transferFrom" ["alice", "dave", "600"]
      (approve (some "alice") ["carol", "500"] (init ["alice"] []).store).store).store
      = setBalance (approve (some "alice") ["carol", "500"] (init ["alice"] []).store).store
          "alice" (100000000 - 600) := by
  have h := (failed_operation_effect (some "carol") "transferFrom" ["alice", "dave", "600"]
    (approve (some "alice") ["carol", "500"] (init ["alice"] []).store).store
    .invalidSubtraction).2 (by decide)
  refine ⟨by decide, h.1, ?_⟩
  rcases h.2.2.2 rfl with ⟨hst, -⟩ |
    ⟨sender, src, recipient, v, value, bf, hc, hargs, hv, hbf, -, hk⟩
  · exact absurd hst (by decide)
  · simp only [Option.some.injEq] at hc
    simp only [List.cons.injEq, and_true] at hargs
    obtain ⟨rfl, rfl, rfl⟩ := hargs
    subst hc
    have h6 : s2u "600" = some 600 := by decide
    have hb : getBalance
        (approve (some "alice") ["carol", "500"] (init ["alice"] []).store).store "alice"
        = .ok 100000000 := by decide
    have ha : getAllowance
        (approve (some "alice") ["carol", "500"] (init ["alice"] []).store).store "alice"
        "carol" = .ok 500 := by decide
    rw [h6] at hv
    rw [hb] at hbf
    simp only [Option.some.injEq] at hv
    simp only [Except.ok.injEq] at hbf
    subst hv
    subst hbf
    rcases hk with ⟨hst, -⟩ | ⟨a, ha1, hla, -⟩
    · exact hst
    · rw [ha] at ha1
      simp only [Except.ok.injEq] at ha1
      omega

end Erc20
